import Mathlib

/-!
Shallow embedding of the core of `Annotations_from_Tabbles.py`
(the OMERO "Get Annotations from Tabbles" script): the shape normalizer
`split_data`, the namespace resolver `transformToMaprNamespace`, and the
reconciliation engine `annotateObject`, together with theorems about them.

Python dicts are modelled as insertion-ordered association lists with
unique keys (entries are only ever inserted when absent, mirroring the
`if k not in d: d[k] = ...` idiom of the source).  Python exceptions
(assertion failures, the `AttributeError` from dereferencing a failed
regex search) are modelled with `Except String`.
-/

/-- `omero.constants.metadata.NSCLIENTMAPANNOTATION`, the source's
`DEFAULT_NAMESPACE`. -/
def DEFAULT_NAMESPACE : String := "openmicroscopy.org/omero/client/mapAnnotation"

/-- A Python dict mapping keys to ordered value lists:
`{key1: [value1, value2, ...], ...}`. -/
abbrev KVDict := List (String × List String)

/-- A Python dict mapping namespaces to `KVDict`s:
`{namespace1: {key1: [...], ...}, ...}`. -/
abbrev NsDict := List (String × KVDict)

/-- The raw Tabbles hierarchy `data_dict`; the namespace level may be
Python `None` (modelled as `Option.none`). -/
abbrev Hier := List (Option String × KVDict)

/-- In-place update of the value stored at the first occurrence of a key,
modelling mutation of a Python dict entry (keys are unique by
construction, so first occurrence is the entry). -/
def updateD {β : Type} (d : List (String × β)) (k : String) (f : β → β) :
    List (String × β) :=
  match d with
  | [] => []
  | (k0, v) :: rest => if k0 = k then (k0, f v) :: rest else (k0, v) :: updateD rest k f

/-- Python's `s.startswith("_")` test for the reserved marker, phrased on
the character list so that it evaluates by `decide`. -/
def startsWithMarker (s : String) : Bool :=
  List.isPrefixOf ['_'] s.toList

/-- Python's `s.lower()`, phrased on the character list. -/
def lowerChars (s : String) : List Char :=
  s.toList.map Char.toLower

/-- Character class of the Python regex `[a-zA-Z\s]`: ASCII letters and
whitespace. -/
def isLetterOrSpaceChar (c : Char) : Bool :=
  (('a' ≤ c && c ≤ 'z') || ('A' ≤ c && c ≤ 'Z') ||
   c = ' ' || c = '\t' || c = '\n' || c = '\r' || c = '\x0b' || c = '\x0c')

/-- Scanner for `findRun`: `acc` holds the letter/whitespace run
currently being read, in reverse.  A maximal run is emitted when it
ends (at a non-matching character or at the end of the input) if it
has at least 3 characters. -/
def findRunAux (acc : List Char) : List Char → Option (List Char)
  | [] => if 3 ≤ acc.length then some acc.reverse else none
  | c :: cs =>
    if isLetterOrSpaceChar c then findRunAux (c :: acc) cs
    else if 3 ≤ acc.length then some acc.reverse else findRunAux [] cs

/-- `re.search(r"[a-zA-Z\s]{3,}", s)`: the leftmost maximal run of at
least 3 letter/whitespace characters, or `none` when the search fails. -/
def findRun (l : List Char) : Option (List Char) :=
  findRunAux [] l

/-- Python's substring test `needle in hay`, on character lists. -/
def strInStr : List Char → List Char → Bool
  | needle, [] => needle.isEmpty
  | needle, c :: rest => needle.isPrefixOf (c :: rest) || strInStr needle rest

/-- `transformToMaprNamespace(orig_ns)` from the source, with the mapr
namespace list (read from the omero-web config in the source) passed
explicitly.  Returns `none` when `re.search` finds no match, modelling
the `AttributeError` raised by `.group()` on `None`. -/
def transformToMaprNamespace (mapr_ns_list : List String) (orig_ns : String) :
    Option String :=
  match findRun orig_ns.toList with
  | none => none
  | some run =>
    let only_letters_ns := run.map Char.toLower
    some (mapr_ns_list.foldl
      (fun result ns =>
        if strInStr only_letters_ns (lowerChars ns)
        then ns else result) "")

/-- The namespace resolution performed at lines 380–382 of `split_data`:
a raw namespace starting with the reserved marker `"_"` becomes the
default namespace, anything else goes through
`transformToMaprNamespace`. -/
def resolveNamespace (mapr : List String) (orig : String) : Option String :=
  if startsWithMarker orig then some DEFAULT_NAMESPACE
  else transformToMaprNamespace mapr orig

/-- The inner value loop of the flat (no-mapr) branch of `split_data`:
append each `[key, value]` pair not already present. -/
def flatAddValues (key : String) (values : List String)
    (lst : List (String × String)) : List (String × String) :=
  values.foldl (fun lst v => if lst.contains (key, v) then lst else lst ++ [(key, v)]) lst

/-- The key loop of the flat branch of `split_data`, including the
`assert key.startswith("_")==False` data-integrity check. -/
def flatProcessKVs (lst : List (String × String)) :
    KVDict → Except String (List (String × String))
  | [] => .ok lst
  | (key, values) :: rest =>
    if startsWithMarker key then .error ("Problem with key " ++ key)
    else flatProcessKVs (flatAddValues key values lst) rest

/-- The per-key part of the namespaced (mapr) branch of `split_data`:
ensure the key exists under the namespace, then append each value not
already present. -/
def dictAddValues (key : String) (values : List String) (d : KVDict) : KVDict :=
  let d := if (List.lookup key d).isSome then d else d ++ [(key, [])]
  values.foldl (fun d v => updateD d key (fun vs => if vs.contains v then vs else vs ++ [v])) d

/-- The per-namespace part of the namespaced branch of `split_data`:
ensure the resolved namespace exists in the dict, then merge every key. -/
def dictProcessNs (d : NsDict) (ns : String) (key_values : KVDict) : NsDict :=
  let d := if (List.lookup ns d).isSome then d else d ++ [(ns, [])]
  key_values.foldl (fun d kv => updateD d ns (dictAddValues kv.1 kv.2)) d

/-- The main loop of `split_data`, threading the three accumulators
`new_tags`, `new_KVpairs_list`, `new_KVpairs_dict`. -/
def split_data_loop (pst : Bool) (mapr : List String) :
    Hier → List String → List (String × String) → NsDict →
    Except String (List String × List (String × String) × NsDict)
  | [], tags, lst, dct => .ok (tags, lst, dct)
  | (nsO, key_values) :: rest, tags, lst, dct =>
    let tags := if nsO = none ∧ pst = true then
        key_values.foldl
          (fun t kv => if startsWithMarker kv.1 then t ++ kv.2 else t) tags
      else tags
    match nsO with
    | none => split_data_loop pst mapr rest tags lst dct
    | some ns0 =>
      if mapr.length = 0 then
        match flatProcessKVs lst key_values with
        | .error e => .error e
        | .ok lst => split_data_loop pst mapr rest tags lst dct
      else
        match resolveNamespace mapr ns0 with
        | none => .error "AttributeError: regex search found no match"
        | some ns => split_data_loop pst mapr rest tags lst (dictProcessNs dct ns key_values)

/-- `split_data(script_params, data_dict)` from the source, with
`Process_single_tags` (`pst`) and the mapr namespace list passed
explicitly.  Returns `(new_tags, new_KVpairs_list, new_KVpairs_dict)`. -/
def split_data (pst : Bool) (mapr : List String) (data : Hier) :
    Except String (List String × List (String × String) × NsDict) :=
  split_data_loop pst mapr data [] [] []


/-- The annotation state of one image together with the server-wide tag
table: `linkedTags` is one entry per tag link on the image,
`allTags` the names in `get_tag_dict`, and `mapAnns` one entry per
MapAnnotation linked to the image (its namespace and its key/value
list). -/
structure ImageState where
  linkedTags : List String
  allTags : List String
  mapAnns : List (String × List (String × String))
deriving Repr, DecidableEq

/-- The `What_to_do_with_existing_Annotations` script parameter. -/
inductive Policy
  | Overwrite
  | Append
deriving Repr, DecidableEq

/-- Merge one MapAnnotation's key/value pairs into its namespace's
grouped dict, as the inner loop of `get_existing_map_annotations`
does: ensure the key is present, then append the value. -/
def addAnnPairs (d : KVDict) : List (String × String) → KVDict
  | [] => d
  | p :: rest =>
    let d := if (List.lookup p.1 d).isSome then d else d ++ [(p.1, [])]
    addAnnPairs (updateD d p.1 (fun vs => vs ++ [p.2])) rest

/-- The annotation loop of `get_existing_map_annotations`, threading the
`existing` dict. -/
def getExistingLoop (acc : NsDict) :
    List (String × List (String × String)) → NsDict
  | [] => acc
  | a :: rest =>
    let acc := if (List.lookup a.1 acc).isSome then acc else acc ++ [(a.1, [])]
    getExistingLoop (updateD acc a.1 (fun d => addAnnPairs d a.2)) rest

/-- `get_existing_map_annotations(image)`: group every MapAnnotation on
the image by namespace, then by key, appending values in order. -/
def get_existing_map_annotations
    (anns : List (String × List (String × String))) : NsDict :=
  getExistingLoop [] anns

/-- The `for key, values: for value: append [key, value]` flattening used
when a grouped dict is turned back into a MapAnnotation value list. -/
def flattenKVDict : KVDict → List (String × String)
  | [] => []
  | kv :: rest => kv.2.map (fun v => (kv.1, v)) ++ flattenKVDict rest

/-- The existing default-namespace key/value pairs of an image, read and
flattened the way both flat branches of `annotateObject` do. -/
def defaultNsFlat (anns : List (String × List (String × String))) :
    List (String × String) :=
  match List.lookup DEFAULT_NAMESPACE (get_existing_map_annotations anns) with
  | some kvd => flattenKVDict kvd
  | none => []

/-- `remove_map_annotations(conn, image, namespace)`.  The `Delete2`
submission may fail (`dfail ns ≠ none`); the source's handler runs
`print("Failed to delete links: {}".format(ex.message))`.  Under
Python 3 that only succeeds when the caught exception has a `message`
attribute (`dfail ns = some true`, e.g. an `omero.ServerError`): the
failure is then logged and swallowed, leaving the state unchanged.
For exceptions without one — such as `omero.CmdError`, which
`waitOnCmd(..., failonerror=True)` raises when the `Delete2` fails, or
Ice transport errors — the handler itself raises `AttributeError`
(`dfail ns = some false`), which propagates to the caller. -/
def remove_map_annotations (dfail : String → Option Bool) (st : ImageState)
    (ns : String) : Except String ImageState :=
  match dfail ns with
  | none => .ok { st with mapAnns := st.mapAnns.filter (fun a => ! (a.1 == ns)) }
  | some true => .ok st
  | some false => .error "AttributeError: object has no attribute message"

/-- `remove_tag_annotations(conn, image)`: unlink every tag link on the
image and return how many links were deleted. -/
def remove_tag_annotations (st : ImageState) : ImageState × Nat :=
  ({ st with linkedTags := [] }, st.linkedTags.length)

/-- One iteration of the Overwrite tag loop: create the tag if its name
is unknown to the server (adding it to the tag table), link it either
way, and count it. -/
def owTagStep (p : ImageState × Int) (tag_value : String) : ImageState × Int :=
  if (p.1.allTags.contains tag_value) = false then
    ({ p.1 with allTags := p.1.allTags ++ [tag_value],
                linkedTags := p.1.linkedTags ++ [tag_value] }, p.2 + 1)
  else
    ({ p.1 with linkedTags := p.1.linkedTags ++ [tag_value] }, p.2 + 1)

/-- The Overwrite tag branch: delete all linked tags, then reuse-or-create
and link every new tag; the net count is `counter - count_removed`. -/
def overwriteTagsBranch (st : ImageState) (new_tags : List String) :
    ImageState × Int :=
  if new_tags.length > 0 then
    let rem := remove_tag_annotations st
    let r := new_tags.foldl owTagStep (rem.1, (0 : Int))
    (r.1, r.2 - rem.2)
  else (st, 0)

/-- The Overwrite flat-KV branch (no OMERO.mapr): prepend the new pairs
to the existing default-namespace pairs, delete the old annotation,
write the combined list, and add `len(new_KVpairs_list)` to the
counter. -/
def overwriteFlatBranch (dfail : String → Option Bool) (mapr : List String)
    (st : ImageState) (log : List String)
    (new_KVpairs_list : List (String × String)) (counter_map : Int) :
    Except String (ImageState × List String × Int) :=
  if new_KVpairs_list.length > 0 then
    if mapr.length = 0 then
      let ns := DEFAULT_NAMESPACE
      let existing_map_annotations := get_existing_map_annotations st.mapAnns
      let existing_map_annotations_lists :=
        match List.lookup ns existing_map_annotations with
        | some kvd => flattenKVDict kvd
        | none => []
      let combined_KV_list := new_KVpairs_list ++ existing_map_annotations_lists
      match remove_map_annotations dfail st ns with
      | .error e => .error e
      | .ok st =>
        let log := log ++ [ns]
        let st := { st with mapAnns := st.mapAnns ++ [(ns, combined_KV_list)] }
        .ok (st, log, counter_map + new_KVpairs_list.length)
    else .error "something went wrong with OMERO.Mapr Parameter"
  else .ok (st, log, counter_map)

/-- Phase 1 of the Overwrite namespaced-KV branch: delete every existing
namespace that is mapr-recognised but absent from the new data,
counting its number of keys into `deleted`. -/
def owPhase1 (dfail : String → Option Bool) (mapr : List String) (dct : NsDict) :
    NsDict → ImageState → List String → Nat →
    Except String (ImageState × List String × Nat)
  | [], st, log, deleted => .ok (st, log, deleted)
  | (ns, kvd) :: rest, st, log, deleted =>
    if mapr.contains ns && (List.lookup ns dct).isNone then
      let deleted := deleted + kvd.length
      match remove_map_annotations dfail st ns with
      | .error e => .error e
      | .ok st => owPhase1 dfail mapr dct rest st (log ++ [ns]) deleted
    else owPhase1 dfail mapr dct rest st log deleted

/-- Phase 2 of the Overwrite namespaced-KV branch: for every namespace in
the new data, count its existing keys into `deleted`, delete it,
write the fresh pairs, and add `len(new_KVpairs_dict)` to `added`. -/
def owPhase2 (dfail : String → Option Bool) (existing dct : NsDict) :
    NsDict → ImageState → List String → Nat → Nat →
    Except String (ImageState × List String × Nat × Nat)
  | [], st, log, deleted, added => .ok (st, log, deleted, added)
  | (ns, key_values) :: rest, st, log, deleted, added =>
    let deleted :=
      match List.lookup ns existing with
      | some kvd => deleted + kvd.length
      | none => deleted
    match remove_map_annotations dfail st ns with
    | .error e => .error e
    | .ok st =>
      let log := log ++ [ns]
      let kv_list := flattenKVDict key_values
      let st := { st with mapAnns := st.mapAnns ++ [(ns, kv_list)] }
      owPhase2 dfail existing dct rest st log deleted (added + dct.length)

/-- The Overwrite namespaced-KV branch (with OMERO.mapr): snapshot the
existing annotations, run both phases and set the counter to
`added - deleted`. -/
def overwriteDictBranch (dfail : String → Option Bool) (mapr : List String)
    (st : ImageState) (log : List String) (new_KVpairs_dict : NsDict)
    (counter_map : Int) : Except String (ImageState × List String × Int) :=
  if new_KVpairs_dict.length > 0 then
    if mapr.length > 0 then
      let existing_map_annotations := get_existing_map_annotations st.mapAnns
      match owPhase1 dfail mapr new_KVpairs_dict existing_map_annotations st log 0 with
      | .error e => .error e
      | .ok r1 =>
        match owPhase2 dfail existing_map_annotations new_KVpairs_dict
            new_KVpairs_dict r1.1 r1.2.1 r1.2.2 0 with
        | .error e => .error e
        | .ok r2 => .ok (r2.1, r2.2.1, (r2.2.2.2 : Int) - (r2.2.2.1 : Int))
    else .error "something went wrong with OMERO.Mapr Parameter"
  else .ok (st, log, counter_map)

/-- One iteration of the Append tag loop, over the fixed `existing_tags`
and `tag_dict` snapshots (the source does not refresh either during
the loop): skip tags already linked, else reuse-or-create, link and
count. -/
def apTagStep (existing_tags tag_dict : List String) (p : ImageState × Int)
    (tag : String) : ImageState × Int :=
  if (existing_tags.contains tag) = false then
    if (tag_dict.contains tag) = false then
      ({ p.1 with allTags := p.1.allTags ++ [tag],
                  linkedTags := p.1.linkedTags ++ [tag] }, p.2 + 1)
    else ({ p.1 with linkedTags := p.1.linkedTags ++ [tag] }, p.2 + 1)
  else p

/-- The Append tag branch. -/
def appendTagsBranch (st : ImageState) (new_tags : List String) :
    ImageState × Int :=
  if new_tags.length > 0 then
    new_tags.foldl (apTagStep st.linkedTags st.allTags) (st, 0)
  else (st, 0)

/-- Membership of a value under a namespace and key in the grouped
snapshot, used by the Append merge. -/
def memNsKey (ex : NsDict) (ns key v : String) : Bool :=
  match List.lookup ns ex with
  | some d =>
    match List.lookup key d with
    | some vs => vs.contains v
    | none => false
  | none => false

/-- One iteration of the Append merge value loop: append (and count) the
value if it is not already present under the namespace and key. -/
def apMergeValStep (ns key : String) (q : NsDict × Int) (v : String) :
    NsDict × Int :=
  if memNsKey q.1 ns key v then q
  else (updateD q.1 ns (fun d => updateD d key (fun vs => vs ++ [v])), q.2 + 1)

/-- The per-key part of the Append merge: ensure the key exists under the
namespace, then run the value loop. -/
def appendMergeKey (ns : String) (exc : NsDict × Int) (key : String)
    (values : List String) : NsDict × Int :=
  let ex :=
    if (List.lookup key ((List.lookup ns exc.1).getD [])).isSome then exc.1
    else updateD exc.1 ns (fun d => d ++ [(key, [])])
  values.foldl (apMergeValStep ns key) (ex, exc.2)

/-- The key loop of the Append merge, for one namespace. -/
def apMergeKeyStep (ns : String) (q : NsDict × Int) (kv : String × List String) :
    NsDict × Int :=
  appendMergeKey ns q kv.1 kv.2

/-- The namespace loop of the Append merge: ensure the namespace exists in
the (mutated) snapshot, then merge each of its keys. -/
def apMergeNsStep (q : NsDict × Int) (nskv : String × KVDict) : NsDict × Int :=
  let q1 := if (List.lookup nskv.1 q.1).isSome then q.1 else q.1 ++ [(nskv.1, [])]
  nskv.2.foldl (apMergeKeyStep nskv.1) (q1, q.2)

/-- The Append merge: fold every new (namespace, key, value) triple into
the existing snapshot, counting newly appended triples. -/
def appendMerge (exc : NsDict × Int) (dct : NsDict) : NsDict × Int :=
  dct.foldl apMergeNsStep exc

/-- The Append rewrite loop: delete and rewrite every namespace of the
merged snapshot. -/
def appendRewrite (dfail : String → Option Bool) :
    NsDict → ImageState → List String → Except String (ImageState × List String)
  | [], st, log => .ok (st, log)
  | (ns, key_values) :: rest, st, log =>
    match remove_map_annotations dfail st ns with
    | .error e => .error e
    | .ok st =>
      let log := log ++ [ns]
      let kv_pairs_to_append := flattenKVDict key_values
      let st := { st with mapAnns := st.mapAnns ++ [(ns, kv_pairs_to_append)] }
      appendRewrite dfail rest st log

/-- The Append namespaced-KV branch (with OMERO.mapr). -/
def appendDictBranch (dfail : String → Option Bool) (mapr : List String)
    (st : ImageState) (log : List String) (new_KVpairs_dict : NsDict)
    (counter_map : Int) : Except String (ImageState × List String × Int) :=
  if new_KVpairs_dict.length > 0 then
    if mapr.length > 0 then
      let existing_kvPairs := get_existing_map_annotations st.mapAnns
      let mc := appendMerge (existing_kvPairs, counter_map) new_KVpairs_dict
      match appendRewrite dfail mc.1 st log with
      | .error e => .error e
      | .ok r => .ok (r.1, r.2, mc.2)
    else .error "something went wrong with OMERO.Mapr Parameter"
  else .ok (st, log, counter_map)

/-- One iteration of the Append flat-KV loop: append (and count) a new
pair not already present in the updated list. -/
def apFlatStep (q : List (String × String) × Int) (key_value : String × String) :
    List (String × String) × Int :=
  if q.1.contains key_value then q else (q.1 ++ [key_value], q.2 + 1)

/-- The Append flat-KV branch (no OMERO.mapr): append each new pair not
already present to the existing default-namespace pairs, counting
only appended ones, then delete and rewrite the default-namespace
annotation. -/
def appendFlatBranch (dfail : String → Option Bool) (mapr : List String)
    (st : ImageState) (log : List String)
    (new_KVpairs_list : List (String × String)) (counter_map : Int) :
    Except String (ImageState × List String × Int) :=
  if new_KVpairs_list.length > 0 then
    if mapr.length = 0 then
      let existing_kvPairs := get_existing_map_annotations st.mapAnns
      let updated_list :=
        match List.lookup DEFAULT_NAMESPACE existing_kvPairs with
        | some kvd => flattenKVDict kvd
        | none => []
      let q := new_KVpairs_list.foldl apFlatStep (updated_list, counter_map)
      match remove_map_annotations dfail st DEFAULT_NAMESPACE with
      | .error e => .error e
      | .ok st =>
        let log := log ++ [DEFAULT_NAMESPACE]
        let st := { st with mapAnns := st.mapAnns ++ [(DEFAULT_NAMESPACE, q.1)] }
        .ok (st, log, q.2)
    else .error "something went wrong with OMERO.Mapr Parameter"
  else .ok (st, log, counter_map)

/-- `annotateObject(conn, script_params, image, data_dict)`: normalize
the Tabbles data and reconcile it with the image's annotations under
the chosen policy.  Returns the new state, the trace of namespaces
against which a MapAnnotation delete was issued, and the pair
`(counter_map_ann, counter_tag_ann)`. -/
def annotateObject (dfail : String → Option Bool) (policy : Policy) (pst : Bool)
    (mapr : List String) (st : ImageState) (data_dict : Hier) :
    Except String (ImageState × List String × Int × Int) :=
  match split_data pst mapr data_dict with
  | .error e => .error e
  | .ok out =>
    let new_tags := out.1
    let new_KVpairs_list := out.2.1
    let new_KVpairs_dict := out.2.2
    match policy with
    | .Overwrite =>
      let r0 := overwriteTagsBranch st new_tags
      match overwriteFlatBranch dfail mapr r0.1 [] new_KVpairs_list 0 with
      | .error e => .error e
      | .ok r1 =>
        match overwriteDictBranch dfail mapr r1.1 r1.2.1 new_KVpairs_dict r1.2.2 with
        | .error e => .error e
        | .ok r2 => .ok (r2.1, r2.2.1, r2.2.2, r0.2)
    | .Append =>
      let r0 := appendTagsBranch st new_tags
      match appendDictBranch dfail mapr r0.1 [] new_KVpairs_dict 0 with
      | .error e => .error e
      | .ok r1 =>
        match appendFlatBranch dfail mapr r1.1 r1.2.1 new_KVpairs_list r1.2.2 with
        | .error e => .error e
        | .ok r2 => .ok (r2.1, r2.2.1, r2.2.2, r0.2)

/-- A (namespace, key, value) triple is stored on the image: some
MapAnnotation with that namespace holds the pair. -/
def storedPairP (anns : List (String × List (String × String)))
    (ns k v : String) : Prop :=
  ∃ a ∈ anns, a.1 = ns ∧ (k, v) ∈ a.2

/-- A (key, value) pair occurs in a grouped key/value dict. -/
def kvdPairP (d : KVDict) (k v : String) : Prop :=
  ∃ e ∈ d, e.1 = k ∧ v ∈ e.2

/-- A (namespace, key, value) triple occurs in a grouped namespace dict. -/
def nsPairP (d : NsDict) (ns k v : String) : Prop :=
  ∃ kvd, List.lookup ns d = some kvd ∧ kvdPairP kvd k v

theorem foldl_pick_last (p : String → Bool) :
    ∀ (l : List String) (d : String),
      l.foldl (fun result ns => if p ns then ns else result) d = (l.filter p).getLastD d
  | [], _ => rfl
  | a :: t, d => by
    rw [List.foldl_cons, List.filter_cons]
    cases h : p a with
    | true => simp only [h, if_true, foldl_pick_last p t a, List.getLastD_cons]
    | false => simp only [h, Bool.false_eq_true, if_false, foldl_pick_last p t d]

/-- C6 counterexample: with directory `["abcX", "abcY"]` and raw namespace
`"abc"` both entries contain the letter run `"abc"`, and the resolver
returns the last matching entry `"abcY"`, not the first entry `"abcX"`
as the claim states. -/
theorem C6_counterexample :
    resolveNamespace ["abcX", "abcY"] "abc" = some "abcY" ∧
    resolveNamespace ["abcX", "abcY"] "abc" ≠ some "abcX" := by
  constructor
  · rfl
  · decide

/-- C6 amended: the resolver returns the default namespace when the raw
namespace starts with the reserved marker; otherwise it extracts the
letter-only run (minimum 3 consecutive letters/whitespace) and returns
the LAST entry of the directory containing that run case-insensitively,
or the empty string if no entry matches; in particular
`resolve("01_Biosample", ["Organism", "Biosample info"])` is
`"Biosample info"`. -/
theorem C6_resolver_last_match (mapr : List String) (raw : String) :
    (startsWithMarker raw = true → resolveNamespace mapr raw = some DEFAULT_NAMESPACE) ∧
    (∀ run, startsWithMarker raw = false → findRun raw.toList = some run →
      resolveNamespace mapr raw =
        some ((mapr.filter
          (fun ns => strInStr (run.map Char.toLower) (lowerChars ns))).getLastD "")) ∧
    resolveNamespace ["Organism", "Biosample info"] "01_Biosample" = some "Biosample info" := by
  refine ⟨?_, ?_, rfl⟩
  · intro h
    simp only [resolveNamespace, h, if_true]
  · intro run h hrun
    simp only [resolveNamespace, h, Bool.false_eq_true, if_false,
      transformToMaprNamespace, hrun, foldl_pick_last]

/-- C6 witness: the amended resolver description applied to the reserved
marker case and to the spec's concrete example. -/
theorem C6_resolver_last_match_witness :
    resolveNamespace ["Organism"] "_workspace" = some DEFAULT_NAMESPACE ∧
    resolveNamespace ["Organism", "Biosample info"] "01_Biosample" = some "Biosample info" :=
  ⟨(C6_resolver_last_match ["Organism"] "_workspace").1 rfl,
   (C6_resolver_last_match [] "").2.2⟩

/-- C10: a raw namespace such as `"01"` has no run of 3 consecutive
letters/whitespace, so `re.search` returns `None`, `.group()` raises
(modelled by `none`), and normalization of a hierarchy containing that
namespace fails instead of resolving it to the empty string. -/
theorem C10_resolver_partial :
    startsWithMarker "01" = false ∧
    findRun "01".toList = none ∧
    transformToMaprNamespace ["Organism"] "01" = none ∧
    split_data true ["Organism"] [(some "01", [("k", ["v"])])] =
      Except.error "AttributeError: regex search found no match" :=
  ⟨rfl, rfl, rfl, rfl⟩

theorem split_data_loop_modes (pst : Bool) (mapr : List String) :
    ∀ (data : Hier) (tags0 : List String) (lst0 : List (String × String)) (dct0 : NsDict)
      (t : List String) (l : List (String × String)) (d : NsDict),
      split_data_loop pst mapr data tags0 lst0 dct0 = .ok (t, l, d) →
      (mapr = [] → d = dct0) ∧ (mapr ≠ [] → l = lst0)
  | [], tags0, lst0, dct0, t, l, d, h => by
    simp only [split_data_loop, Except.ok.injEq, Prod.mk.injEq] at h
    exact ⟨fun _ => h.2.2.symm, fun _ => h.2.1.symm⟩
  | (nsO, key_values) :: rest, tags0, lst0, dct0, t, l, d, h => by
    simp only [split_data_loop] at h
    cases nsO with
    | none => exact split_data_loop_modes pst mapr rest _ _ _ t l d h
    | some ns0 =>
      by_cases hm : mapr.length = 0
      · have hnil : mapr = [] := List.length_eq_zero.mp hm
        simp only [hm, if_true] at h
        cases hf : flatProcessKVs lst0 key_values with
        | error e => rw [hf] at h; exact absurd h (by simp)
        | ok lst1 =>
          rw [hf] at h
          have ih := split_data_loop_modes pst mapr rest _ _ _ t l d h
          exact ⟨ih.1, fun hne => absurd hnil hne⟩
      · simp only [hm, if_false] at h
        cases hr : resolveNamespace mapr ns0 with
        | none => rw [hr] at h; exact absurd h (by simp)
        | some ns =>
          rw [hr] at h
          have ih := split_data_loop_modes pst mapr rest _ _ _ t l d h
          exact ⟨fun hnil => absurd (by simp [hnil]) hm, ih.2⟩

/-- C5: normalization populates at most one of the two key/value output
shapes: with an empty namespace directory the namespaced dict stays
empty, with a non-empty directory the flat list stays empty. -/
theorem C5_modes_exclusive (pst : Bool) (mapr : List String) (data : Hier)
    (t : List String) (l : List (String × String)) (d : NsDict)
    (h : split_data pst mapr data = .ok (t, l, d)) :
    (mapr = [] → d = []) ∧ (mapr ≠ [] → l = []) :=
  split_data_loop_modes pst mapr data [] [] [] t l d h

/-- C5 witness: the exclusivity applied to the spec's namespace-aware
scenario. -/
theorem C5_modes_exclusive_witness :
    ((["Biosample info"] : List String) = [] →
      ([("Biosample info", [("species", ["mouse"])])] : NsDict) = []) ∧
    ((["Biosample info"] : List String) ≠ [] → ([] : List (String × String)) = []) :=
  C5_modes_exclusive true ["Biosample info"] [(some "01_Bio", [("species", ["mouse"])])]
    [] [] [("Biosample info", [("species", ["mouse"])])] rfl

theorem flatProcessKVs_cons (lst : List (String × String)) (k : String)
    (vs : List String) (rest : KVDict) :
    flatProcessKVs lst ((k, vs) :: rest) =
      (if startsWithMarker k then .error ("Problem with key " ++ k)
       else flatProcessKVs (flatAddValues k vs lst) rest) := rfl

theorem flatProcessKVs_err (k : String) (vs : List String)
    (hstart : startsWithMarker k = true) :
    ∀ (kvs : KVDict) (lst : List (String × String)), (k, vs) ∈ kvs →
      ∃ e, flatProcessKVs lst kvs = .error e
  | [], _, hmem => absurd hmem (List.not_mem_nil _)
  | (k0, vs0) :: rest, lst, hmem => by
    rcases List.mem_cons.mp hmem with heq | htail
    · cases heq
      rw [flatProcessKVs_cons, if_pos hstart]
      exact ⟨"Problem with key " ++ k, rfl⟩
    · by_cases h0 : startsWithMarker k0 = true
      · rw [flatProcessKVs_cons, if_pos h0]
        exact ⟨"Problem with key " ++ k0, rfl⟩
      · rw [flatProcessKVs_cons, if_neg h0]
        exact flatProcessKVs_err k vs hstart rest (flatAddValues k0 vs0 lst) htail

theorem split_data_loop_cons_none (pst : Bool) (mapr : List String)
    (key_values : KVDict) (rest : Hier) (tags : List String)
    (lst : List (String × String)) (dct : NsDict) :
    split_data_loop pst mapr ((none, key_values) :: rest) tags lst dct =
      split_data_loop pst mapr rest
        (if (none : Option String) = none ∧ pst = true then
          key_values.foldl (fun t kv => if startsWithMarker kv.1 then t ++ kv.2 else t) tags
         else tags) lst dct := rfl

theorem split_data_loop_cons_some_nomapr (pst : Bool) (ns0 : String)
    (key_values : KVDict) (rest : Hier) (tags : List String)
    (lst : List (String × String)) (dct : NsDict) :
    split_data_loop pst [] ((some ns0, key_values) :: rest) tags lst dct =
      (match flatProcessKVs lst key_values with
       | .error e => .error e
       | .ok lst1 => split_data_loop pst [] rest tags lst1 dct) := rfl

theorem split_data_loop_err (pst : Bool) (ns0 k : String) (kvs : KVDict)
    (vs : List String) (hk : (k, vs) ∈ kvs) (hstart : startsWithMarker k = true) :
    ∀ (data : Hier) (tags0 : List String) (lst0 : List (String × String)) (dct0 : NsDict),
      (some ns0, kvs) ∈ data →
      ∃ e, split_data_loop pst [] data tags0 lst0 dct0 = .error e
  | [], _, _, _, hmem => absurd hmem (List.not_mem_nil _)
  | (nsO, key_values) :: rest, tags0, lst0, dct0, hmem => by
    rcases List.mem_cons.mp hmem with heq | htail
    · cases heq
      rw [split_data_loop_cons_some_nomapr]
      obtain ⟨e, he⟩ := flatProcessKVs_err k vs hstart kvs lst0 hk
      rw [he]
      exact ⟨e, rfl⟩
    · cases nsO with
      | none =>
        rw [split_data_loop_cons_none]
        exact split_data_loop_err pst ns0 k kvs vs hk hstart rest _ _ _ htail
      | some ns1 =>
        rw [split_data_loop_cons_some_nomapr]
        cases hf : flatProcessKVs lst0 key_values with
        | error e => exact ⟨e, rfl⟩
        | ok lst1 => exact split_data_loop_err pst ns0 k kvs vs hk hstart rest _ _ _ htail

/-- C8: in namespace-unaware mode (empty directory), a hierarchy triple
with a non-none namespace whose key starts with the reserved marker
makes the normalizer raise the data-integrity assertion instead of
coercing the entry into a key/value pair. -/
theorem C8_reserved_key_fails (pst : Bool) (data : Hier) (ns0 k : String)
    (kvs : KVDict) (vs : List String)
    (hmem : (some ns0, kvs) ∈ data) (hk : (k, vs) ∈ kvs)
    (hstart : startsWithMarker k = true) :
    ∃ e, split_data pst [] data = .error e :=
  split_data_loop_err pst ns0 k kvs vs hk hstart data [] [] [] hmem

/-- C8 witness: the assertion fires on a concrete misclassified triple. -/
theorem C8_reserved_key_fails_witness :
    ∃ e, split_data true [] [(some "A", [("_bad", ["x"])])] = .error e :=
  C8_reserved_key_fails true [(some "A", [("_bad", ["x"])])] "A" "_bad"
    [("_bad", ["x"])] ["x"] (List.mem_singleton.mpr rfl) (List.mem_singleton.mpr rfl) rfl

theorem annotateObject_ok_overwrite (dfail : String → Option Bool) (pst : Bool)
    (mapr : List String) (st : ImageState) (data : Hier)
    (tags : List String) (lst : List (String × String)) (dct : NsDict)
    (hsplit : split_data pst mapr data = .ok (tags, lst, dct)) :
    annotateObject dfail .Overwrite pst mapr st data =
      (match overwriteFlatBranch dfail mapr (overwriteTagsBranch st tags).1 [] lst 0 with
       | .error e => .error e
       | .ok r1 =>
         match overwriteDictBranch dfail mapr r1.1 r1.2.1 dct r1.2.2 with
         | .error e => .error e
         | .ok r2 => .ok (r2.1, r2.2.1, r2.2.2, (overwriteTagsBranch st tags).2)) := by
  unfold annotateObject
  rw [hsplit]

theorem annotateObject_ok_append (dfail : String → Option Bool) (pst : Bool)
    (mapr : List String) (st : ImageState) (data : Hier)
    (tags : List String) (lst : List (String × String)) (dct : NsDict)
    (hsplit : split_data pst mapr data = .ok (tags, lst, dct)) :
    annotateObject dfail .Append pst mapr st data =
      (match appendDictBranch dfail mapr (appendTagsBranch st tags).1 [] dct 0 with
       | .error e => .error e
       | .ok r1 =>
         match appendFlatBranch dfail mapr r1.1 r1.2.1 lst r1.2.2 with
         | .error e => .error e
         | .ok r2 => .ok (r2.1, r2.2.1, r2.2.2, (appendTagsBranch st tags).2)) := by
  unfold annotateObject
  rw [hsplit]

theorem owTagStep_mapAnns (p : ImageState × Int) (tag : String) :
    (owTagStep p tag).1.mapAnns = p.1.mapAnns := by
  unfold owTagStep; split <;> rfl

theorem owTagStep_linked (p : ImageState × Int) (tag : String) :
    (owTagStep p tag).1.linkedTags = p.1.linkedTags ++ [tag] := by
  unfold owTagStep; split <;> rfl

theorem owTagStep_counter (p : ImageState × Int) (tag : String) :
    (owTagStep p tag).2 = p.2 + 1 := by
  unfold owTagStep; split <;> rfl

theorem owTagFold_mapAnns :
    ∀ (nt : List String) (p : ImageState × Int),
      (nt.foldl owTagStep p).1.mapAnns = p.1.mapAnns
  | [], _ => rfl
  | tag :: rest, p => by
    rw [List.foldl_cons, owTagFold_mapAnns rest, owTagStep_mapAnns]

theorem owTagFold_linked :
    ∀ (nt : List String) (p : ImageState × Int),
      (nt.foldl owTagStep p).1.linkedTags = p.1.linkedTags ++ nt
  | [], p => (List.append_nil _).symm
  | tag :: rest, p => by
    rw [List.foldl_cons, owTagFold_linked rest, owTagStep_linked]
    simp

theorem owTagFold_counter :
    ∀ (nt : List String) (p : ImageState × Int),
      (nt.foldl owTagStep p).2 = p.2 + nt.length
  | [], p => by simp
  | tag :: rest, p => by
    rw [List.foldl_cons, owTagFold_counter rest, owTagStep_counter]
    simp only [List.length_cons]
    push_cast
    ring

theorem overwriteTagsBranch_mapAnns (st : ImageState) (nt : List String) :
    (overwriteTagsBranch st nt).1.mapAnns = st.mapAnns := by
  unfold overwriteTagsBranch
  split
  · rw [owTagFold_mapAnns]; rfl
  · rfl

theorem overwriteTagsBranch_linked (st : ImageState) (nt : List String)
    (h : nt ≠ []) : (overwriteTagsBranch st nt).1.linkedTags = nt := by
  unfold overwriteTagsBranch
  rw [if_pos (List.length_pos.mpr h), owTagFold_linked]
  rfl

theorem overwriteTagsBranch_counter (st : ImageState) (nt : List String)
    (h : nt ≠ []) :
    (overwriteTagsBranch st nt).2 = (nt.length : Int) - st.linkedTags.length := by
  unfold overwriteTagsBranch
  rw [if_pos (List.length_pos.mpr h)]
  show (nt.foldl owTagStep _).2 - ((remove_tag_annotations st).2 : Int) =
    (nt.length : Int) - st.linkedTags.length
  rw [owTagFold_counter]
  show ((0 : Int) + nt.length) - (st.linkedTags.length : Int) =
    (nt.length : Int) - st.linkedTags.length
  ring

theorem overwriteFlatBranch_spec (st : ImageState)
    (log : List String) (lst : List (String × String)) (c : Int) (h : lst ≠ []) :
    overwriteFlatBranch (fun _ => none) [] st log lst c =
      .ok ({ st with
              mapAnns := st.mapAnns.filter (fun a => ! (a.1 == DEFAULT_NAMESPACE)) ++
                [(DEFAULT_NAMESPACE, lst ++ defaultNsFlat st.mapAnns)] },
           log ++ [DEFAULT_NAMESPACE], c + lst.length) := by
  unfold overwriteFlatBranch
  rw [if_pos (List.length_pos.mpr h)]
  rfl

theorem overwriteFlatBranch_nil (dfail : String → Option Bool) (mapr : List String)
    (st : ImageState) (log : List String) (c : Int) :
    overwriteFlatBranch dfail mapr st log [] c = .ok (st, log, c) := rfl

theorem overwriteDictBranch_nil (dfail : String → Option Bool) (mapr : List String)
    (st : ImageState) (log : List String) (c : Int) :
    overwriteDictBranch dfail mapr st log [] c = .ok (st, log, c) := rfl

/-- C3 counterexample: in Overwrite mode with an empty directory, existing
default-namespace pairs `[("species","rat")]` and new pairs
`[("species","rat")]`, the strictly-new pair count is 0, but the engine
reports a net count of 1 (and stores the pair twice). -/
theorem C3_counterexample :
    annotateObject (fun _ => none) .Overwrite false []
        ⟨[], [], [(DEFAULT_NAMESPACE, [("species", "rat")])]⟩
        [(some "A", [("species", ["rat"])])] =
      .ok (⟨[], [], [(DEFAULT_NAMESPACE, [("species", "rat"), ("species", "rat")])]⟩,
        [DEFAULT_NAMESPACE], 1, 0) ∧ (1 : Int) ≠ 0 :=
  ⟨rfl, by decide⟩

/-- C3 amended: in Overwrite mode with an empty Namespace Directory and a
non-empty normalized flat list, the net key/value count equals the
TOTAL number of normalized new pairs (whether or not they already
exist), and the stored default-namespace annotation is the new list
prepended to the flattened existing default-namespace pairs (so the
spec's rat/mouse union scenario holds, but overlapping pairs are
double-counted and duplicated). -/
theorem C3_overwrite_flat (pst : Bool) (st : ImageState) (data : Hier)
    (tags : List String) (lst : List (String × String)) (dct : NsDict)
    (hsplit : split_data pst [] data = .ok (tags, lst, dct)) (hne : lst ≠ [])
    (st1 : ImageState) (log : List String) (kv tg : Int)
    (hrun : annotateObject (fun _ => none) .Overwrite pst [] st data =
      .ok (st1, log, kv, tg)) :
    kv = lst.length ∧
    st1.mapAnns = st.mapAnns.filter (fun a => ! (a.1 == DEFAULT_NAMESPACE)) ++
      [(DEFAULT_NAMESPACE, lst ++ defaultNsFlat st.mapAnns)] := by
  have hdct : dct = [] :=
    (split_data_loop_modes pst [] data [] [] [] tags lst dct hsplit).1 rfl
  subst hdct
  rw [annotateObject_ok_overwrite (fun _ => none) pst [] st data tags lst [] hsplit] at hrun
  rw [overwriteFlatBranch_spec (overwriteTagsBranch st tags).1 [] lst 0 hne] at hrun
  simp only [overwriteDictBranch_nil, Except.ok.injEq, Prod.mk.injEq] at hrun
  obtain ⟨hst1, hlog, hkv, htg⟩ := hrun
  constructor
  · rw [← hkv]; ring
  · rw [← hst1]
    show (overwriteTagsBranch st tags).1.mapAnns.filter (fun a => ! (a.1 == DEFAULT_NAMESPACE)) ++
      [(DEFAULT_NAMESPACE, lst ++ defaultNsFlat (overwriteTagsBranch st tags).1.mapAnns)] = _
    rw [overwriteTagsBranch_mapAnns]

/-- C3 witness: the amended statement at the spec's rat/mouse scenario. -/
theorem C3_overwrite_flat_witness :
    (1 : Int) = (([("species", "mouse")] : List (String × String)).length : Int) ∧
    ([(DEFAULT_NAMESPACE, [("species", "mouse"), ("species", "rat")])] :
        List (String × List (String × String))) =
      ([(DEFAULT_NAMESPACE, [("species", "rat")])] :
        List (String × List (String × String))).filter
          (fun a => ! (a.1 == DEFAULT_NAMESPACE)) ++
      [(DEFAULT_NAMESPACE, [("species", "mouse")] ++
        defaultNsFlat [(DEFAULT_NAMESPACE, [("species", "rat")])])] :=
  C3_overwrite_flat false ⟨[], [], [(DEFAULT_NAMESPACE, [("species", "rat")])]⟩
    [(some "A", [("species", ["mouse"])])] [] [("species", "mouse")] [] rfl
    (by decide)
    ⟨[], [], [(DEFAULT_NAMESPACE, [("species", "mouse"), ("species", "rat")])]⟩
    [DEFAULT_NAMESPACE] 1 0 rfl

theorem remove_map_linkedTags (dfail : String → Option Bool) (st st1 : ImageState)
    (ns : String) (h : remove_map_annotations dfail st ns = .ok st1) :
    st1.linkedTags = st.linkedTags := by
  unfold remove_map_annotations at h
  split at h
  · simp only [Except.ok.injEq] at h
    rw [← h]
  · simp only [Except.ok.injEq] at h
    rw [← h]
  · exact absurd h (by simp)

theorem owPhase1_cons_pos (mapr : List String) (dct : NsDict) (ns : String)
    (kvd : KVDict) (rest : NsDict) (st : ImageState) (log : List String) (d0 : Nat)
    (hc : (mapr.contains ns && (List.lookup ns dct).isNone) = true) :
    owPhase1 (fun _ => none) mapr dct ((ns, kvd) :: rest) st log d0 =
      owPhase1 (fun _ => none) mapr dct rest
        { st with mapAnns := st.mapAnns.filter (fun a => ! (a.1 == ns)) }
        (log ++ [ns]) (d0 + kvd.length) := by
  conv_lhs => rw [owPhase1]
  rw [if_pos hc]
  rfl

theorem owPhase1_cons_neg (mapr : List String) (dct : NsDict) (ns : String)
    (kvd : KVDict) (rest : NsDict) (st : ImageState) (log : List String) (d0 : Nat)
    (hc : (mapr.contains ns && (List.lookup ns dct).isNone) = false) :
    owPhase1 (fun _ => none) mapr dct ((ns, kvd) :: rest) st log d0 =
      owPhase1 (fun _ => none) mapr dct rest st log d0 := by
  conv_lhs => rw [owPhase1]
  rw [if_neg (by rw [hc]; exact Bool.false_ne_true)]

theorem owPhase1_total (mapr : List String) (dct : NsDict) :
    ∀ (ex : NsDict) (st : ImageState) (log : List String) (d0 : Nat),
      ∃ r, owPhase1 (fun _ => none) mapr dct ex st log d0 = .ok r
  | [], st, log, d0 => ⟨(st, log, d0), rfl⟩
  | (ns, kvd) :: rest, st, log, d0 => by
    cases hc : mapr.contains ns && (List.lookup ns dct).isNone with
    | true =>
      rw [owPhase1_cons_pos mapr dct ns kvd rest st log d0 hc]
      exact owPhase1_total mapr dct rest _ _ _
    | false =>
      rw [owPhase1_cons_neg mapr dct ns kvd rest st log d0 hc]
      exact owPhase1_total mapr dct rest _ _ _

theorem owPhase2_cons_some (ex dct : NsDict) (ns : String) (key_values : KVDict)
    (rest : NsDict) (st : ImageState) (log : List String) (d0 a0 : Nat) (kvd : KVDict)
    (hl : List.lookup ns ex = some kvd) :
    owPhase2 (fun _ => none) ex dct ((ns, key_values) :: rest) st log d0 a0 =
      owPhase2 (fun _ => none) ex dct rest
        { st with mapAnns := st.mapAnns.filter (fun a => ! (a.1 == ns)) ++
            [(ns, flattenKVDict key_values)] }
        (log ++ [ns]) (d0 + kvd.length) (a0 + dct.length) := by
  conv_lhs => rw [owPhase2]
  rw [hl]
  rfl

theorem owPhase2_cons_none (ex dct : NsDict) (ns : String) (key_values : KVDict)
    (rest : NsDict) (st : ImageState) (log : List String) (d0 a0 : Nat)
    (hl : List.lookup ns ex = none) :
    owPhase2 (fun _ => none) ex dct ((ns, key_values) :: rest) st log d0 a0 =
      owPhase2 (fun _ => none) ex dct rest
        { st with mapAnns := st.mapAnns.filter (fun a => ! (a.1 == ns)) ++
            [(ns, flattenKVDict key_values)] }
        (log ++ [ns]) d0 (a0 + dct.length) := by
  conv_lhs => rw [owPhase2]
  rw [hl]
  rfl

theorem owPhase2_total (ex dct : NsDict) :
    ∀ (l : NsDict) (st : ImageState) (log : List String) (d0 a0 : Nat),
      ∃ r, owPhase2 (fun _ => none) ex dct l st log d0 a0 = .ok r
  | [], st, log, d0, a0 => ⟨(st, log, d0, a0), rfl⟩
  | (ns, key_values) :: rest, st, log, d0, a0 => by
    cases hl : List.lookup ns ex with
    | some kvd =>
      rw [owPhase2_cons_some ex dct ns key_values rest st log d0 a0 kvd hl]
      exact owPhase2_total ex dct rest _ _ _ _
    | none =>
      rw [owPhase2_cons_none ex dct ns key_values rest st log d0 a0 hl]
      exact owPhase2_total ex dct rest _ _ _ _

theorem owPhase1_linkedTags (mapr : List String) (dct : NsDict) :
    ∀ (ex : NsDict) (st : ImageState) (log : List String) (d0 : Nat)
      (r : ImageState × List String × Nat),
      owPhase1 (fun _ => none) mapr dct ex st log d0 = .ok r →
      r.1.linkedTags = st.linkedTags
  | [], st, log, d0, r, h => by
    simp only [owPhase1, Except.ok.injEq] at h
    rw [← h]
  | (ns, kvd) :: rest, st, log, d0, r, h => by
    cases hc : mapr.contains ns && (List.lookup ns dct).isNone with
    | true =>
      rw [owPhase1_cons_pos mapr dct ns kvd rest st log d0 hc] at h
      exact (owPhase1_linkedTags mapr dct rest _ _ _ r h).trans rfl
    | false =>
      rw [owPhase1_cons_neg mapr dct ns kvd rest st log d0 hc] at h
      exact owPhase1_linkedTags mapr dct rest _ _ _ r h

theorem owPhase2_linkedTags (ex dct : NsDict) :
    ∀ (l : NsDict) (st : ImageState) (log : List String) (d0 a0 : Nat)
      (r : ImageState × List String × Nat × Nat),
      owPhase2 (fun _ => none) ex dct l st log d0 a0 = .ok r →
      r.1.linkedTags = st.linkedTags
  | [], st, log, d0, a0, r, h => by
    simp only [owPhase2, Except.ok.injEq] at h
    rw [← h]
  | (ns, key_values) :: rest, st, log, d0, a0, r, h => by
    cases hl : List.lookup ns ex with
    | some kvd =>
      rw [owPhase2_cons_some ex dct ns key_values rest st log d0 a0 kvd hl] at h
      exact (owPhase2_linkedTags ex dct rest _ _ _ _ r h).trans rfl
    | none =>
      rw [owPhase2_cons_none ex dct ns key_values rest st log d0 a0 hl] at h
      exact (owPhase2_linkedTags ex dct rest _ _ _ _ r h).trans rfl

theorem overwriteFlatBranch_linkedTags (mapr : List String)
    (st : ImageState) (log : List String) (lst : List (String × String)) (c : Int)
    (r : ImageState × List String × Int)
    (h : overwriteFlatBranch (fun _ => none) mapr st log lst c = .ok r) :
    r.1.linkedTags = st.linkedTags := by
  unfold overwriteFlatBranch at h
  split at h
  · split at h
    · simp only [remove_map_annotations, Except.ok.injEq] at h
      rw [← h]
    · exact absurd h (by simp)
  · simp only [Except.ok.injEq] at h
    rw [← h]

theorem overwriteDictBranch_linkedTags (mapr : List String)
    (st : ImageState) (log : List String) (dct : NsDict) (c : Int)
    (r : ImageState × List String × Int)
    (h : overwriteDictBranch (fun _ => none) mapr st log dct c = .ok r) :
    r.1.linkedTags = st.linkedTags := by
  unfold overwriteDictBranch at h
  split at h
  · split at h
    · obtain ⟨r1, h1⟩ := owPhase1_total mapr dct
        (get_existing_map_annotations st.mapAnns) st log 0
      obtain ⟨r2, h2⟩ := owPhase2_total (get_existing_map_annotations st.mapAnns)
        dct dct r1.1 r1.2.1 r1.2.2 0
      simp only [h1, h2, Except.ok.injEq] at h
      rw [← h]
      show r2.1.linkedTags = st.linkedTags
      rw [owPhase2_linkedTags (get_existing_map_annotations st.mapAnns)
          dct dct r1.1 r1.2.1 r1.2.2 0 r2 h2,
        owPhase1_linkedTags mapr dct (get_existing_map_annotations st.mapAnns)
          st log 0 r1 h1]
    · exact absurd h (by simp)
  · simp only [Except.ok.injEq] at h
    rw [← h]

theorem annotateObject_err (dfail : String → Option Bool) (policy : Policy) (pst : Bool)
    (mapr : List String) (st : ImageState) (data : Hier) (e : String)
    (hsplit : split_data pst mapr data = .error e) :
    annotateObject dfail policy pst mapr st data = .error e := by
  unfold annotateObject
  rw [hsplit]

theorem overwriteTagsBranch_nil (st : ImageState) :
    overwriteTagsBranch st [] = (st, 0) := rfl

theorem annotateObject_overwrite_tags_out (pst : Bool)
    (mapr : List String) (st : ImageState) (data : Hier)
    (tags : List String) (lst : List (String × String)) (dct : NsDict)
    (hsplit : split_data pst mapr data = .ok (tags, lst, dct))
    (st1 : ImageState) (log : List String) (kv tg : Int)
    (hrun : annotateObject (fun _ => none) .Overwrite pst mapr st data =
      .ok (st1, log, kv, tg)) :
    tg = (overwriteTagsBranch st tags).2 ∧
    st1.linkedTags = (overwriteTagsBranch st tags).1.linkedTags := by
  rw [annotateObject_ok_overwrite (fun _ => none) pst mapr st data tags lst dct hsplit] at hrun
  cases hf : overwriteFlatBranch (fun _ => none) mapr
      (overwriteTagsBranch st tags).1 [] lst 0 with
  | error e => rw [hf] at hrun; exact absurd hrun (by simp)
  | ok r1 =>
    rw [hf] at hrun
    cases hd : overwriteDictBranch (fun _ => none) mapr r1.1 r1.2.1 dct r1.2.2 with
    | error e => simp only [hd] at hrun; exact absurd hrun (by simp)
    | ok r2 =>
      simp only [hd, Except.ok.injEq, Prod.mk.injEq] at hrun
      obtain ⟨h1, _, _, h4⟩ := hrun
      refine ⟨h4.symm, ?_⟩
      rw [← h1, overwriteDictBranch_linkedTags mapr r1.1 r1.2.1 dct r1.2.2 r2 hd,
        overwriteFlatBranch_linkedTags mapr (overwriteTagsBranch st tags).1 [] lst 0 r1 hf]

/-- C4 counterexample: Overwrite run twice with identical data in flat
mode; the second run again reports a net key/value count of 1 (and
stores the pair a second time), not 0. -/
theorem C4_counterexample :
    annotateObject (fun _ => none) .Overwrite false [] ⟨[], [], []⟩
        [(some "A", [("species", ["mouse"])])] =
      .ok (⟨[], [], [(DEFAULT_NAMESPACE, [("species", "mouse")])]⟩,
        [DEFAULT_NAMESPACE], 1, 0) ∧
    annotateObject (fun _ => none) .Overwrite false []
        ⟨[], [], [(DEFAULT_NAMESPACE, [("species", "mouse")])]⟩
        [(some "A", [("species", ["mouse"])])] =
      .ok (⟨[], [], [(DEFAULT_NAMESPACE, [("species", "mouse"), ("species", "mouse")])]⟩,
        [DEFAULT_NAMESPACE], 1, 0) ∧
    (1 : Int) ≠ 0 :=
  ⟨rfl, rfl, by decide⟩

/-- C4 amended: running Overwrite twice with identical data yields a
second-run net TAG count of zero, but the net key/value count of the
second run need not be zero. -/
theorem C4_overwrite_second_run_tags_zero (pst : Bool) (mapr : List String)
    (st : ImageState) (data : Hier)
    (st1 : ImageState) (log1 : List String) (kv1 tg1 : Int)
    (h1 : annotateObject (fun _ => none) .Overwrite pst mapr st data =
      .ok (st1, log1, kv1, tg1))
    (st2 : ImageState) (log2 : List String) (kv2 tg2 : Int)
    (h2 : annotateObject (fun _ => none) .Overwrite pst mapr st1 data =
      .ok (st2, log2, kv2, tg2)) :
    tg2 = 0 := by
  cases hs : split_data pst mapr data with
  | error e =>
    rw [annotateObject_err (fun _ => none) .Overwrite pst mapr st data e hs] at h1
    exact absurd h1 (by simp)
  | ok out =>
    obtain ⟨tags, lst, dct⟩ := out
    have o1 := annotateObject_overwrite_tags_out pst mapr st data
      tags lst dct hs st1 log1 kv1 tg1 h1
    have o2 := annotateObject_overwrite_tags_out pst mapr st1 data
      tags lst dct hs st2 log2 kv2 tg2 h2
    rcases List.eq_nil_or_concat tags with htags | ⟨t0, ts, htags⟩
    · subst htags
      rw [o2.1, overwriteTagsBranch_nil]
    · have hne : tags ≠ [] := by
        rw [htags]; exact fun hcontra => by simp at hcontra
      have hlinked : st1.linkedTags = tags := by
        rw [o1.2, overwriteTagsBranch_linked st tags hne]
      rw [o2.1, overwriteTagsBranch_counter st1 tags hne, hlinked]
      exact sub_self _

/-- C4 witness: the amended statement on a concrete double run carrying
both a tag and a key/value pair. -/
theorem C4_overwrite_second_run_tags_zero_witness : (0 : Int) = 0 :=
  C4_overwrite_second_run_tags_zero true [] ⟨[], [], []⟩
    [(some "A", [("species", ["mouse"])]), (none, [("_w", ["untagged"])])]
    ⟨["untagged"], ["untagged"], [(DEFAULT_NAMESPACE, [("species", "mouse")])]⟩
    [DEFAULT_NAMESPACE] 1 1 rfl
    ⟨["untagged"], ["untagged"],
      [(DEFAULT_NAMESPACE, [("species", "mouse"), ("species", "mouse")])]⟩
    [DEFAULT_NAMESPACE] 1 0 rfl

theorem owPhase1_deleted (mapr : List String) (dct : NsDict) :
    ∀ (ex : NsDict) (st : ImageState) (log : List String) (d0 : Nat)
      (r : ImageState × List String × Nat),
      owPhase1 (fun _ => none) mapr dct ex st log d0 = .ok r →
      r.2.2 =
        d0 + ((ex.filter (fun p => mapr.contains p.1 && (List.lookup p.1 dct).isNone)).map
          (fun p => p.2.length)).sum
  | [], st, log, d0, r, h => by
    simp only [owPhase1, Except.ok.injEq] at h
    rw [← h]
    simp
  | (ns, kvd) :: rest, st, log, d0, r, h => by
    cases hc : mapr.contains ns && (List.lookup ns dct).isNone with
    | true =>
      rw [owPhase1_cons_pos mapr dct ns kvd rest st log d0 hc] at h
      rw [owPhase1_deleted mapr dct rest _ _ _ r h]
      simp only [List.filter_cons, hc, if_true, List.map_cons, List.sum_cons]
      omega
    | false =>
      rw [owPhase1_cons_neg mapr dct ns kvd rest st log d0 hc] at h
      rw [owPhase1_deleted mapr dct rest _ _ _ r h]
      simp only [List.filter_cons, hc, Bool.false_eq_true, if_false]

theorem owPhase2_deleted (ex dct : NsDict) :
    ∀ (l : NsDict) (st : ImageState) (log : List String) (d0 a0 : Nat)
      (r : ImageState × List String × Nat × Nat),
      owPhase2 (fun _ => none) ex dct l st log d0 a0 = .ok r →
      r.2.2.1 = d0 + (l.map (fun p => ((List.lookup p.1 ex).getD []).length)).sum
  | [], st, log, d0, a0, r, h => by
    simp only [owPhase2, Except.ok.injEq] at h
    rw [← h]
    simp
  | (ns, key_values) :: rest, st, log, d0, a0, r, h => by
    cases hl : List.lookup ns ex with
    | none =>
      rw [owPhase2_cons_none ex dct ns key_values rest st log d0 a0 hl] at h
      rw [owPhase2_deleted ex dct rest _ _ _ _ r h]
      simp only [hl, List.map_cons, List.sum_cons, Option.getD_none, List.length_nil]
      omega
    | some kvd =>
      rw [owPhase2_cons_some ex dct ns key_values rest st log d0 a0 kvd hl] at h
      rw [owPhase2_deleted ex dct rest _ _ _ _ r h]
      simp only [hl, List.map_cons, List.sum_cons, Option.getD_some]
      exact Nat.add_assoc d0 kvd.length _

theorem owPhase2_added (ex dct : NsDict) :
    ∀ (l : NsDict) (st : ImageState) (log : List String) (d0 a0 : Nat)
      (r : ImageState × List String × Nat × Nat),
      owPhase2 (fun _ => none) ex dct l st log d0 a0 = .ok r →
      r.2.2.2 = a0 + l.length * dct.length
  | [], st, log, d0, a0, r, h => by
    simp only [owPhase2, Except.ok.injEq] at h
    rw [← h]
    simp
  | (ns, key_values) :: rest, st, log, d0, a0, r, h => by
    cases hl : List.lookup ns ex with
    | none =>
      rw [owPhase2_cons_none ex dct ns key_values rest st log d0 a0 hl] at h
      rw [owPhase2_added ex dct rest _ _ _ _ r h]
      simp only [List.length_cons]
      ring
    | some kvd =>
      rw [owPhase2_cons_some ex dct ns key_values rest st log d0 a0 kvd hl] at h
      rw [owPhase2_added ex dct rest _ _ _ _ r h]
      simp only [List.length_cons]
      ring

theorem overwriteDictBranch_counter (mapr : List String)
    (st : ImageState) (log : List String) (dct : NsDict) (c : Int)
    (hd : dct ≠ []) (hm : mapr ≠ [])
    (r : ImageState × List String × Int)
    (h : overwriteDictBranch (fun _ => none) mapr st log dct c = .ok r) :
    r.2.2 = ((dct.length * dct.length : Nat) : Int) -
      ((((get_existing_map_annotations st.mapAnns).filter
          (fun p => mapr.contains p.1 && (List.lookup p.1 dct).isNone)).map
            (fun p => p.2.length)).sum +
        (dct.map (fun p =>
          ((List.lookup p.1 (get_existing_map_annotations st.mapAnns)).getD []).length)).sum :
        Nat) := by
  unfold overwriteDictBranch at h
  rw [if_pos (List.length_pos.mpr hd), if_pos (List.length_pos.mpr hm)] at h
  obtain ⟨r1, h1⟩ := owPhase1_total mapr dct
    (get_existing_map_annotations st.mapAnns) st log 0
  obtain ⟨r2, h2⟩ := owPhase2_total (get_existing_map_annotations st.mapAnns)
    dct dct r1.1 r1.2.1 r1.2.2 0
  simp only [h1, h2, Except.ok.injEq] at h
  rw [← h]
  show ((r2.2.2.2 : Nat) : Int) - ((r2.2.2.1 : Nat) : Int) = _
  rw [owPhase2_added (get_existing_map_annotations st.mapAnns)
      dct dct r1.1 r1.2.1 r1.2.2 0 r2 h2,
    owPhase2_deleted (get_existing_map_annotations st.mapAnns)
      dct dct r1.1 r1.2.1 r1.2.2 0 r2 h2,
    owPhase1_deleted mapr dct (get_existing_map_annotations st.mapAnns)
      st log 0 r1 h1]
  push_cast
  ring

/-- C1 counterexample: Overwrite with directory `["Biosample info"]`, no
existing annotations, and new data resolving to one namespace with one
key and two values: 2 pairs are written and 0 pairs existed under
superseded-or-deleted namespaces, so the claim predicts a net count of
2, but the engine returns 1 (it adds `len(new_KVpairs_dict)` per
namespace and subtracts key counts, not pair counts). -/
theorem C1_counterexample :
    annotateObject (fun _ => none) .Overwrite false ["Biosample info"] ⟨[], [], []⟩
        [(some "01_Bio", [("species", ["mouse", "rat"])])] =
      .ok (⟨[], [], [("Biosample info", [("species", "mouse"), ("species", "rat")])]⟩,
        ["Biosample info"], 1, 0) ∧ (1 : Int) ≠ 2 - 0 :=
  ⟨rfl, by decide⟩

/-- C1 amended: in Overwrite mode with a non-empty directory and non-empty
namespaced data, the net key/value count is the SQUARE of the number of
namespaces in the new data minus the number of existing KEYS under
directory-recognised namespaces absent from the new data and under
namespaces present in the new data — not pairs written minus pairs
superseded. -/
theorem C1_overwrite_namespaced_count (pst : Bool) (mapr : List String)
    (st : ImageState) (data : Hier)
    (tags : List String) (lst : List (String × String)) (dct : NsDict)
    (hsplit : split_data pst mapr data = .ok (tags, lst, dct))
    (hm : mapr ≠ []) (hd : dct ≠ [])
    (st1 : ImageState) (log : List String) (kv tg : Int)
    (hrun : annotateObject (fun _ => none) .Overwrite pst mapr st data =
      .ok (st1, log, kv, tg)) :
    kv = ((dct.length * dct.length : Nat) : Int) -
      ((((get_existing_map_annotations st.mapAnns).filter
          (fun p => mapr.contains p.1 && (List.lookup p.1 dct).isNone)).map
            (fun p => p.2.length)).sum +
        (dct.map (fun p =>
          ((List.lookup p.1 (get_existing_map_annotations st.mapAnns)).getD []).length)).sum :
        Nat) := by
  have hlst : lst = [] :=
    (split_data_loop_modes pst mapr data [] [] [] tags lst dct hsplit).2 hm
  subst hlst
  rw [annotateObject_ok_overwrite (fun _ => none) pst mapr st data tags [] dct hsplit] at hrun
  simp only [overwriteFlatBranch_nil] at hrun
  cases hodb : overwriteDictBranch (fun _ => none) mapr
      (overwriteTagsBranch st tags).1 [] dct 0 with
  | error e =>
    rw [hodb] at hrun
    exact absurd hrun (by simp)
  | ok r2 =>
    simp only [hodb, Except.ok.injEq, Prod.mk.injEq] at hrun
    have hc := overwriteDictBranch_counter mapr
      (overwriteTagsBranch st tags).1 [] dct 0 hd hm r2 hodb
    rw [← hrun.2.2.1, hc, overwriteTagsBranch_mapAnns]

/-- C1 witness: the amended count formula on a concrete Overwrite run with
one new namespace (one key, two values) and one existing superseded
namespace holding one key. -/
theorem C1_overwrite_namespaced_count_witness :
    (0 : Int) = ((1 * 1 : Nat) : Int) -
      ((((get_existing_map_annotations
            [("Biosample info", [("species", "rat")])]).filter
          (fun p => ["Biosample info"].contains p.1 &&
            (List.lookup p.1
              [("Biosample info", [("species", ["mouse", "rat"])])]).isNone)).map
            (fun p => p.2.length)).sum +
        ([("Biosample info", [("species", ["mouse", "rat"])])].map (fun p =>
          ((List.lookup p.1 (get_existing_map_annotations
            [("Biosample info", [("species", "rat")])])).getD []).length)).sum :
        Nat) :=
  C1_overwrite_namespaced_count false ["Biosample info"]
    ⟨[], [], [("Biosample info", [("species", "rat")])]⟩
    [(some "01_Bio", [("species", ["mouse", "rat"])])]
    [] [] [("Biosample info", [("species", ["mouse", "rat"])])] rfl
    (List.cons_ne_nil _ _) (List.cons_ne_nil _ _)
    ⟨[], [], [("Biosample info", [("species", "mouse"), ("species", "rat")])]⟩
    ["Biosample info"] 0 0 rfl

theorem lookup_cons' {β : Type} (k k0 : String) (v : β) (rest : List (String × β)) :
    List.lookup k ((k0, v) :: rest) = if k = k0 then some v else List.lookup k rest := by
  by_cases h : k = k0
  · subst h; simp [List.lookup_cons]
  · simp [List.lookup_cons, beq_eq_false_iff_ne.mpr h, h]

theorem lookup_updateD_self {β : Type} (k : String) (f : β → β) (d : List (String × β)) :
    List.lookup k (updateD d k f) = (List.lookup k d).map f := by
  induction d with
  | nil => rfl
  | cons hd rest ih =>
    obtain ⟨k0, v⟩ := hd
    by_cases h : k0 = k
    · subst h
      simp [updateD, lookup_cons']
    · have h2 : ¬ k = k0 := fun hc => h hc.symm
      simp [updateD, h, h2, lookup_cons', ih]

theorem lookup_updateD_ne {β : Type} (k k0 : String) (f : β → β) (hne : k ≠ k0)
    (d : List (String × β)) :
    List.lookup k (updateD d k0 f) = List.lookup k d := by
  induction d with
  | nil => rfl
  | cons hd rest ih =>
    obtain ⟨k1, v⟩ := hd
    by_cases h : k1 = k0
    · subst h
      simp [updateD, lookup_cons', hne]
    · simp [updateD, h, lookup_cons', ih]

theorem updateD_not_mem {β : Type} (k0 : String) (f : β → β) (d : List (String × β))
    (h : List.lookup k0 d = none) : updateD d k0 f = d := by
  induction d with
  | nil => rfl
  | cons hd rest ih =>
    obtain ⟨k1, v⟩ := hd
    rw [lookup_cons'] at h
    by_cases h1 : k0 = k1
    · rw [if_pos h1] at h; exact absurd h (by simp)
    · rw [if_neg h1] at h
      have h2 : ¬ k1 = k0 := fun hc => h1 hc.symm
      rw [updateD, if_neg h2, ih h]

theorem updateD_keys {β : Type} (k0 : String) (f : β → β) (d : List (String × β)) :
    (updateD d k0 f).map Prod.fst = d.map Prod.fst := by
  induction d with
  | nil => rfl
  | cons hd rest ih =>
    obtain ⟨k1, v⟩ := hd
    by_cases h : k1 = k0
    · rw [updateD, if_pos h]; rfl
    · rw [updateD, if_neg h, List.map_cons, List.map_cons, ih]

theorem lookup_append_some {β : Type} (k : String) (v : β) (d2 : List (String × β))
    (d1 : List (String × β)) (h : List.lookup k d1 = some v) :
    List.lookup k (d1 ++ d2) = some v := by
  induction d1 with
  | nil => exact absurd h (by simp)
  | cons hd rest ih =>
    obtain ⟨k1, w⟩ := hd
    rw [lookup_cons'] at h
    rw [List.cons_append, lookup_cons']
    by_cases h1 : k = k1
    · rwa [if_pos h1] at h ⊢
    · rw [if_neg h1] at h ⊢
      exact ih h

theorem lookup_append_none {β : Type} (k : String) (d2 : List (String × β))
    (d1 : List (String × β)) (h : List.lookup k d1 = none) :
    List.lookup k (d1 ++ d2) = List.lookup k d2 := by
  induction d1 with
  | nil => rfl
  | cons hd rest ih =>
    obtain ⟨k1, w⟩ := hd
    rw [lookup_cons'] at h
    rw [List.cons_append, lookup_cons']
    by_cases h1 : k = k1
    · rw [if_pos h1] at h; exact absurd h (by simp)
    · rw [if_neg h1] at h ⊢
      exact ih h

theorem lookup_none_iff_keys {β : Type} (k : String) (d : List (String × β)) :
    List.lookup k d = none ↔ k ∉ d.map Prod.fst := by
  induction d with
  | nil => simp
  | cons hd rest ih =>
    obtain ⟨k1, v⟩ := hd
    rw [lookup_cons']
    by_cases h1 : k = k1
    · subst h1; simp
    · simp only [if_neg h1, List.map_cons, List.mem_cons]
      rw [ih]
      constructor
      · rintro h (h2 | h2)
        · exact h1 h2
        · exact h h2
      · intro h h2
        exact h (Or.inr h2)

theorem kvdPairP_nil (k v : String) : ¬ kvdPairP [] k v := by
  simp [kvdPairP]

theorem kvdPairP_append_key (d : KVDict) (key k v : String) :
    kvdPairP (d ++ [(key, [])]) k v ↔ kvdPairP d k v := by
  unfold kvdPairP
  aesop

theorem kvdPairP_updateD_append (key v0 k v : String) (d : KVDict)
    (hs : (List.lookup key d).isSome = true) :
    kvdPairP (updateD d key (fun vs => vs ++ [v0])) k v ↔
      kvdPairP d k v ∨ (k = key ∧ v = v0) := by
  induction d with
  | nil => simp at hs
  | cons hd rest ih =>
    obtain ⟨k1, vs⟩ := hd
    by_cases h1 : k1 = key
    · subst h1
      rw [updateD, if_pos rfl]
      unfold kvdPairP
      simp only [List.mem_cons, List.mem_append, List.mem_singleton]
      constructor
      · rintro ⟨e, he | he, h2, h3⟩
        · subst he
          simp only at h2 h3
          rcases List.mem_append.mp h3 with h3 | h3
          · exact Or.inl ⟨(k1, vs), Or.inl rfl, h2, h3⟩
          · rw [List.mem_singleton] at h3
            exact Or.inr ⟨h2.symm, h3⟩
        · exact Or.inl ⟨e, Or.inr he, h2, h3⟩
      · rintro (⟨e, he | he, h2, h3⟩ | ⟨h2, h3⟩)
        · subst he
          exact ⟨(k1, vs ++ [v0]), Or.inl rfl, h2,
            List.mem_append.mpr (Or.inl h3)⟩
        · exact ⟨e, Or.inr he, h2, h3⟩
        · exact ⟨(k1, vs ++ [v0]), Or.inl rfl, h2.symm,
            List.mem_append.mpr (Or.inr (List.mem_singleton.mpr h3))⟩
    · rw [lookup_cons'] at hs
      have hkk : ¬ key = k1 := fun hc => h1 hc.symm
      rw [if_neg hkk] at hs
      have hne : ¬ k1 = key := h1
      rw [updateD, if_neg hne]
      unfold kvdPairP
      simp only [List.mem_cons]
      have ihr := ih hs
      unfold kvdPairP at ihr
      constructor
      · rintro ⟨e, he | he, h2, h3⟩
        · exact Or.inl ⟨e, Or.inl he, h2, h3⟩
        · rcases ihr.mp ⟨e, he, h2, h3⟩ with h4 | h4
          · obtain ⟨e2, he2, h5, h6⟩ := h4
            exact Or.inl ⟨e2, Or.inr he2, h5, h6⟩
          · exact Or.inr h4
      · rintro (⟨e, he | he, h2, h3⟩ | h4)
        · exact ⟨e, Or.inl he, h2, h3⟩
        · obtain ⟨e2, he2, h5, h6⟩ := ihr.mpr (Or.inl ⟨e, he, h2, h3⟩)
          exact ⟨e2, Or.inr he2, h5, h6⟩
        · obtain ⟨e2, he2, h5, h6⟩ := ihr.mpr (Or.inr h4)
          exact ⟨e2, Or.inr he2, h5, h6⟩

theorem kvdPairP_updateD_mono (d : KVDict) (key v0 k v : String)
    (h : kvdPairP d k v) :
    kvdPairP (updateD d key (fun vs => vs ++ [v0])) k v := by
  cases hk : List.lookup key d with
  | none => rwa [updateD_not_mem key _ d hk]
  | some vs =>
    exact (kvdPairP_updateD_append key v0 k v d (by rw [hk]; rfl)).mpr (Or.inl h)

theorem addAnnPairs_pairP (k v : String) :
    ∀ (pairs : List (String × String)) (d : KVDict),
      kvdPairP (addAnnPairs d pairs) k v ↔ kvdPairP d k v ∨ (k, v) ∈ pairs
  | [], d => by simp [addAnnPairs]
  | p :: rest, d => by
    rw [addAnnPairs]
    by_cases hp : (List.lookup p.1 d).isSome = true
    · rw [if_pos hp]
      rw [addAnnPairs_pairP k v rest, kvdPairP_updateD_append p.1 p.2 k v d hp]
      simp only [List.mem_cons]
      constructor
      · rintro ((h | ⟨h1, h2⟩) | h)
        · exact Or.inl h
        · exact Or.inr (Or.inl (by rw [h1, h2]))
        · exact Or.inr (Or.inr h)
      · rintro (h | (h | h))
        · exact Or.inl (Or.inl h)
        · exact Or.inl (Or.inr ⟨congrArg Prod.fst h, congrArg Prod.snd h⟩)
        · exact Or.inr h
    · rw [if_neg hp]
      have hnone : List.lookup p.1 d = none := by
        cases hl : List.lookup p.1 d with
        | none => rfl
        | some w => rw [hl] at hp; exact absurd rfl hp
      have hsome : (List.lookup p.1 (d ++ [(p.1, [])])).isSome = true := by
        rw [lookup_append_none p.1 _ d hnone, lookup_cons', if_pos rfl]
        rfl
      rw [addAnnPairs_pairP k v rest,
        kvdPairP_updateD_append p.1 p.2 k v (d ++ [(p.1, [])]) hsome,
        kvdPairP_append_key]
      simp only [List.mem_cons]
      constructor
      · rintro ((h | ⟨h1, h2⟩) | h)
        · exact Or.inl h
        · exact Or.inr (Or.inl (by rw [h1, h2]))
        · exact Or.inr (Or.inr h)
      · rintro (h | (h | h))
        · exact Or.inl (Or.inl h)
        · exact Or.inl (Or.inr ⟨congrArg Prod.fst h, congrArg Prod.snd h⟩)
        · exact Or.inr h

theorem lookup_append_single_ne {β : Type} (k k0 : String) (x : β)
    (d : List (String × β)) (h : k ≠ k0) :
    List.lookup k (d ++ [(k0, x)]) = List.lookup k d := by
  cases hl : List.lookup k d with
  | some v => exact lookup_append_some k v _ d hl
  | none => rw [lookup_append_none k _ d hl, lookup_cons', if_neg h]; rfl

theorem storedPairP_cons (a : String × List (String × String))
    (rest : List (String × List (String × String))) (ns k v : String) :
    storedPairP (a :: rest) ns k v ↔
      (a.1 = ns ∧ (k, v) ∈ a.2) ∨ storedPairP rest ns k v := by
  unfold storedPairP
  simp only [List.mem_cons]
  constructor
  · rintro ⟨e, he | he, h1, h2⟩
    · subst he; exact Or.inl ⟨h1, h2⟩
    · exact Or.inr ⟨e, he, h1, h2⟩
  · rintro (⟨h1, h2⟩ | ⟨e, he, h1, h2⟩)
    · exact ⟨a, Or.inl rfl, h1, h2⟩
    · exact ⟨e, Or.inr he, h1, h2⟩

theorem nsPairP_mergeAnn (acc : NsDict) (ns0 : String)
    (pairs : List (String × String)) (ns k v : String) :
    nsPairP (updateD (if (List.lookup ns0 acc).isSome then acc else acc ++ [(ns0, [])])
        ns0 (fun d => addAnnPairs d pairs)) ns k v ↔
      nsPairP acc ns k v ∨ (ns0 = ns ∧ (k, v) ∈ pairs) := by
  by_cases hns : ns = ns0
  · subst hns
    unfold nsPairP
    cases hl : List.lookup ns acc with
    | some d0 =>
      simp only [Option.isSome_some, if_true]
      rw [lookup_updateD_self]
      simp only [Option.map_some', Option.some.injEq, exists_eq_left',
        addAnnPairs_pairP]
      simp [hl, addAnnPairs_pairP]
    | none =>
      simp only [Option.isSome_none, Bool.false_eq_true, if_false]
      rw [lookup_updateD_self, lookup_append_none ns ([(ns, [])]) acc hl,
        lookup_cons', if_pos rfl]
      simp only [Option.map_some', Option.some.injEq, exists_eq_left',
        addAnnPairs_pairP]
      simp [kvdPairP]
  · unfold nsPairP
    rw [lookup_updateD_ne ns ns0 _ hns]
    have hback : List.lookup ns (if (List.lookup ns0 acc).isSome then acc
        else acc ++ [(ns0, [])]) = List.lookup ns acc := by
      split
      · rfl
      · exact lookup_append_single_ne ns ns0 ([] : KVDict) acc hns
    rw [hback]
    constructor
    · exact fun h => Or.inl h
    · rintro (h | ⟨h1, _⟩)
      · exact h
      · exact absurd h1.symm hns

theorem getExistingLoop_cons (acc : NsDict) (a : String × List (String × String))
    (rest : List (String × List (String × String))) :
    getExistingLoop acc (a :: rest) =
      getExistingLoop (updateD (if (List.lookup a.1 acc).isSome then acc
        else acc ++ [(a.1, [])]) a.1 (fun d => addAnnPairs d a.2)) rest := rfl

theorem getExistingLoop_pairP (ns k v : String) :
    ∀ (anns : List (String × List (String × String))) (acc : NsDict),
      nsPairP (getExistingLoop acc anns) ns k v ↔
        nsPairP acc ns k v ∨ storedPairP anns ns k v
  | [], acc => by
    unfold getExistingLoop storedPairP
    simp
  | a :: rest, acc => by
    rw [getExistingLoop_cons, getExistingLoop_pairP ns k v rest,
      nsPairP_mergeAnn, storedPairP_cons]
    constructor
    · rintro ((h | ⟨h1, h2⟩) | h)
      · exact Or.inl h
      · exact Or.inr (Or.inl ⟨h1, h2⟩)
      · exact Or.inr (Or.inr h)
    · rintro (h | (⟨h1, h2⟩ | h))
      · exact Or.inl (Or.inl h)
      · exact Or.inl (Or.inr ⟨h1, h2⟩)
      · exact Or.inr h

theorem getExisting_pairP (anns : List (String × List (String × String)))
    (ns k v : String) :
    nsPairP (get_existing_map_annotations anns) ns k v ↔ storedPairP anns ns k v := by
  rw [get_existing_map_annotations, getExistingLoop_pairP]
  have h : ¬ nsPairP [] ns k v := by
    unfold nsPairP
    simp
  constructor
  · rintro (h1 | h1)
    · exact absurd h1 h
    · exact h1
  · exact Or.inr

theorem getExistingLoop_keys_nodup :
    ∀ (anns : List (String × List (String × String))) (acc : NsDict),
      (acc.map Prod.fst).Nodup → ((getExistingLoop acc anns).map Prod.fst).Nodup
  | [], acc, h => h
  | a :: rest, acc, h => by
    rw [getExistingLoop_cons]
    refine getExistingLoop_keys_nodup rest _ ?_
    rw [updateD_keys]
    split
    · exact h
    · rename_i hcond
      have hnone : List.lookup a.1 acc = none := by
        cases hl : List.lookup a.1 acc with
        | none => rfl
        | some w => rw [hl] at hcond; exact absurd rfl hcond
      have hnm : a.1 ∉ acc.map Prod.fst := (lookup_none_iff_keys a.1 acc).mp hnone
      simp only [List.map_append, List.map_cons, List.map_nil]
      rw [List.nodup_append]
      refine ⟨h, List.nodup_singleton _, ?_⟩
      intro x hx hx2
      rw [List.mem_singleton] at hx2
      subst hx2
      exact hnm hx

theorem getExisting_keys_nodup (anns : List (String × List (String × String))) :
    ((get_existing_map_annotations anns).map Prod.fst).Nodup :=
  getExistingLoop_keys_nodup anns [] List.nodup_nil

theorem lookup_isSome_iff_keys {β : Type} (k : String) (d : List (String × β)) :
    (List.lookup k d).isSome = true ↔ k ∈ d.map Prod.fst := by
  cases h : List.lookup k d with
  | none =>
    simp only [Option.isSome_none, Bool.false_eq_true, false_iff]
    exact (lookup_none_iff_keys k d).mp h
  | some v =>
    simp only [Option.isSome_some, true_iff]
    by_contra hc
    rw [← lookup_none_iff_keys k d] at hc
    rw [h] at hc
    exact absurd hc (by simp)

theorem appendMerge_cons (exc : NsDict × Int) (x : String × KVDict) (rest : NsDict) :
    appendMerge exc (x :: rest) = appendMerge (apMergeNsStep exc x) rest := rfl

theorem apMergeValFold_lookup_ne (ns0 key ns : String) (hne : ns ≠ ns0) :
    ∀ (values : List String) (q : NsDict × Int),
      List.lookup ns (values.foldl (apMergeValStep ns0 key) q).1 = List.lookup ns q.1
  | [], q => rfl
  | v1 :: rest, q => by
    rw [List.foldl_cons, apMergeValFold_lookup_ne ns0 key ns hne rest]
    unfold apMergeValStep
    split
    · rfl
    · exact lookup_updateD_ne ns ns0 _ hne q.1

theorem appendMergeKey_lookup_ne (ns0 key ns : String) (hne : ns ≠ ns0)
    (values : List String) (q : NsDict × Int) :
    List.lookup ns (appendMergeKey ns0 q key values).1 = List.lookup ns q.1 := by
  unfold appendMergeKey
  rw [apMergeValFold_lookup_ne ns0 key ns hne]
  split
  · rfl
  · exact lookup_updateD_ne ns ns0 _ hne q.1

theorem apMergeKeyFold_lookup_ne (ns0 ns : String) (hne : ns ≠ ns0) :
    ∀ (kvs : KVDict) (q : NsDict × Int),
      List.lookup ns (kvs.foldl (apMergeKeyStep ns0) q).1 = List.lookup ns q.1
  | [], q => rfl
  | kv :: rest, q => by
    rw [List.foldl_cons, apMergeKeyFold_lookup_ne ns0 ns hne rest]
    unfold apMergeKeyStep
    exact appendMergeKey_lookup_ne ns0 kv.1 ns hne kv.2 q

theorem apMergeNsStep_lookup_ne (ns : String) (x : String × KVDict)
    (q : NsDict × Int) (hne : ns ≠ x.1) :
    List.lookup ns (apMergeNsStep q x).1 = List.lookup ns q.1 := by
  unfold apMergeNsStep
  rw [apMergeKeyFold_lookup_ne x.1 ns hne]
  split
  · rfl
  · exact lookup_append_single_ne ns x.1 _ q.1 hne

theorem appendMerge_lookup_ne (ns : String) :
    ∀ (dct : NsDict) (exc : NsDict × Int), List.lookup ns dct = none →
      List.lookup ns (appendMerge exc dct).1 = List.lookup ns exc.1
  | [], exc, _ => rfl
  | x :: rest, exc, h => by
    rw [lookup_cons'] at h
    by_cases hx : ns = x.1
    · rw [if_pos hx] at h; exact absurd h (by simp)
    · rw [if_neg hx] at h
      rw [appendMerge_cons, appendMerge_lookup_ne ns rest _ h,
        apMergeNsStep_lookup_ne ns x exc hx]

theorem nsPairP_append_single (d : NsDict) (ns0 ns k v : String)
    (h : nsPairP d ns k v) : nsPairP (d ++ [(ns0, [])]) ns k v := by
  obtain ⟨kvd, hl, hp⟩ := h
  exact ⟨kvd, lookup_append_some ns kvd _ d hl, hp⟩

theorem nsPairP_updateD_inner_mono (d : NsDict) (ns0 key v1 ns k v : String)
    (h : nsPairP d ns k v) :
    nsPairP (updateD d ns0 (fun kvd => updateD kvd key (fun vs => vs ++ [v1]))) ns k v := by
  obtain ⟨kvd, hl, hp⟩ := h
  by_cases hx : ns = ns0
  · subst hx
    refine ⟨updateD kvd key (fun vs => vs ++ [v1]), ?_,
      kvdPairP_updateD_mono kvd key v1 k v hp⟩
    rw [lookup_updateD_self, hl]
    rfl
  · exact ⟨kvd, by rw [lookup_updateD_ne ns ns0 _ hx, hl], hp⟩

theorem nsPairP_updateD_addkey_mono (d : NsDict) (ns0 key ns k v : String)
    (h : nsPairP d ns k v) :
    nsPairP (updateD d ns0 (fun kvd => kvd ++ [(key, [])])) ns k v := by
  obtain ⟨kvd, hl, hp⟩ := h
  by_cases hx : ns = ns0
  · subst hx
    refine ⟨kvd ++ [(key, [])], ?_, (kvdPairP_append_key kvd key k v).mpr hp⟩
    rw [lookup_updateD_self, hl]
    rfl
  · exact ⟨kvd, by rw [lookup_updateD_ne ns ns0 _ hx, hl], hp⟩

theorem apMergeValFold_pairP_mono (ns0 key ns k v : String) :
    ∀ (values : List String) (q : NsDict × Int), nsPairP q.1 ns k v →
      nsPairP (values.foldl (apMergeValStep ns0 key) q).1 ns k v
  | [], q, h => h
  | v1 :: rest, q, h => by
    rw [List.foldl_cons]
    refine apMergeValFold_pairP_mono ns0 key ns k v rest _ ?_
    unfold apMergeValStep
    split
    · exact h
    · exact nsPairP_updateD_inner_mono q.1 ns0 key v1 ns k v h

theorem appendMergeKey_pairP_mono (ns0 key ns k v : String) (values : List String)
    (q : NsDict × Int) (h : nsPairP q.1 ns k v) :
    nsPairP (appendMergeKey ns0 q key values).1 ns k v := by
  unfold appendMergeKey
  refine apMergeValFold_pairP_mono ns0 key ns k v values _ ?_
  split
  · exact h
  · exact nsPairP_updateD_addkey_mono q.1 ns0 key ns k v h

theorem apMergeKeyFold_pairP_mono (ns0 ns k v : String) :
    ∀ (kvs : KVDict) (q : NsDict × Int), nsPairP q.1 ns k v →
      nsPairP (kvs.foldl (apMergeKeyStep ns0) q).1 ns k v
  | [], q, h => h
  | kv :: rest, q, h => by
    rw [List.foldl_cons]
    exact apMergeKeyFold_pairP_mono ns0 ns k v rest _
      (appendMergeKey_pairP_mono ns0 kv.1 ns k v kv.2 q h)

theorem apMergeNsStep_pairP_mono (ns k v : String) (x : String × KVDict)
    (q : NsDict × Int) (h : nsPairP q.1 ns k v) :
    nsPairP (apMergeNsStep q x).1 ns k v := by
  unfold apMergeNsStep
  refine apMergeKeyFold_pairP_mono x.1 ns k v x.2 _ ?_
  split
  · exact h
  · exact nsPairP_append_single q.1 x.1 ns k v h

theorem appendMerge_pairP_mono (ns k v : String) :
    ∀ (dct : NsDict) (exc : NsDict × Int), nsPairP exc.1 ns k v →
      nsPairP (appendMerge exc dct).1 ns k v
  | [], exc, h => h
  | x :: rest, exc, h => by
    rw [appendMerge_cons]
    exact appendMerge_pairP_mono ns k v rest _ (apMergeNsStep_pairP_mono ns k v x exc h)

theorem apMergeValFold_keys (ns0 key : String) :
    ∀ (values : List String) (q : NsDict × Int),
      (values.foldl (apMergeValStep ns0 key) q).1.map Prod.fst = q.1.map Prod.fst
  | [], q => rfl
  | v1 :: rest, q => by
    rw [List.foldl_cons, apMergeValFold_keys ns0 key rest]
    unfold apMergeValStep
    split
    · rfl
    · exact updateD_keys ns0 _ q.1

theorem appendMergeKey_keys (ns0 key : String) (values : List String)
    (q : NsDict × Int) :
    (appendMergeKey ns0 q key values).1.map Prod.fst = q.1.map Prod.fst := by
  unfold appendMergeKey
  rw [apMergeValFold_keys]
  split
  · rfl
  · exact updateD_keys ns0 _ q.1

theorem apMergeKeyFold_keys (ns0 : String) :
    ∀ (kvs : KVDict) (q : NsDict × Int),
      (kvs.foldl (apMergeKeyStep ns0) q).1.map Prod.fst = q.1.map Prod.fst
  | [], q => rfl
  | kv :: rest, q => by
    rw [List.foldl_cons, apMergeKeyFold_keys ns0 rest]
    unfold apMergeKeyStep
    exact appendMergeKey_keys ns0 kv.1 kv.2 q

theorem apMergeNsStep_keys_nodup (x : String × KVDict) (q : NsDict × Int)
    (h : (q.1.map Prod.fst).Nodup) : ((apMergeNsStep q x).1.map Prod.fst).Nodup := by
  unfold apMergeNsStep
  rw [apMergeKeyFold_keys]
  split
  · exact h
  · rename_i hcond
    have hnone : List.lookup x.1 q.1 = none := by
      cases hl : List.lookup x.1 q.1 with
      | none => rfl
      | some w => rw [hl] at hcond; exact absurd rfl hcond
    have hnm : x.1 ∉ q.1.map Prod.fst := (lookup_none_iff_keys x.1 q.1).mp hnone
    simp only [List.map_append, List.map_cons, List.map_nil]
    rw [List.nodup_append]
    refine ⟨h, List.nodup_singleton _, ?_⟩
    intro y hy hy2
    rw [List.mem_singleton] at hy2
    subst hy2
    exact hnm hy

theorem apMergeNsStep_keys_subset (x : String × KVDict) (q : NsDict × Int) :
    q.1.map Prod.fst ⊆ (apMergeNsStep q x).1.map Prod.fst := by
  unfold apMergeNsStep
  rw [apMergeKeyFold_keys]
  split
  · exact fun y hy => hy
  · intro y hy
    simp only [List.map_append, List.map_cons, List.map_nil]
    exact List.mem_append.mpr (Or.inl hy)

theorem appendMerge_keys_nodup :
    ∀ (dct : NsDict) (exc : NsDict × Int), (exc.1.map Prod.fst).Nodup →
      ((appendMerge exc dct).1.map Prod.fst).Nodup
  | [], exc, h => h
  | x :: rest, exc, h => by
    rw [appendMerge_cons]
    exact appendMerge_keys_nodup rest _ (apMergeNsStep_keys_nodup x exc h)

theorem appendMerge_keys_subset :
    ∀ (dct : NsDict) (exc : NsDict × Int),
      exc.1.map Prod.fst ⊆ (appendMerge exc dct).1.map Prod.fst
  | [], exc => fun y hy => hy
  | x :: rest, exc => by
    rw [appendMerge_cons]
    exact fun y hy =>
      appendMerge_keys_subset rest _ (apMergeNsStep_keys_subset x exc hy)

theorem appendMerge_isSome_mono (dct : NsDict) (exc : NsDict × Int) (ns : String)
    (h : (List.lookup ns exc.1).isSome = true) :
    (List.lookup ns (appendMerge exc dct).1).isSome = true := by
  rw [lookup_isSome_iff_keys] at h ⊢
  exact appendMerge_keys_subset dct exc h

theorem kvdPairP_cons (e : String × List String) (rest : KVDict) (k v : String) :
    kvdPairP (e :: rest) k v ↔ (e.1 = k ∧ v ∈ e.2) ∨ kvdPairP rest k v := by
  unfold kvdPairP
  simp only [List.mem_cons]
  constructor
  · rintro ⟨e2, he | he, h1, h2⟩
    · subst he; exact Or.inl ⟨h1, h2⟩
    · exact Or.inr ⟨e2, he, h1, h2⟩
  · rintro (⟨h1, h2⟩ | ⟨e2, he, h1, h2⟩)
    · exact ⟨e, Or.inl rfl, h1, h2⟩
    · exact ⟨e2, Or.inr he, h1, h2⟩

theorem flatten_pair_mem (k v : String) :
    ∀ kvd : KVDict, (k, v) ∈ flattenKVDict kvd ↔ kvdPairP kvd k v
  | [] => by simp [flattenKVDict, kvdPairP]
  | e :: rest => by
    rw [flattenKVDict, kvdPairP_cons]
    simp only [List.mem_append, List.mem_map, flatten_pair_mem k v rest]
    constructor
    · rintro (⟨v2, hv2, heq⟩ | h)
      · obtain ⟨h1, h2⟩ := Prod.mk.injEq .. ▸ heq
        exact Or.inl ⟨h1, h2 ▸ hv2⟩
      · exact Or.inr h
    · rintro (⟨h1, h2⟩ | h)
      · exact Or.inl ⟨v, h2, by rw [h1]⟩
      · exact Or.inr h

theorem storedPairP_filter_ne (anns : List (String × List (String × String)))
    (ns0 ns k v : String) (hne : ns ≠ ns0) :
    storedPairP (anns.filter (fun a => ! (a.1 == ns0))) ns k v ↔
      storedPairP anns ns k v := by
  unfold storedPairP
  constructor
  · rintro ⟨e, he, h1, h2⟩
    exact ⟨e, (List.mem_filter.mp he).1, h1, h2⟩
  · rintro ⟨e, he, h1, h2⟩
    refine ⟨e, List.mem_filter.mpr ⟨he, ?_⟩, h1, h2⟩
    rw [h1]
    simp [beq_eq_false_iff_ne.mpr hne]

theorem storedPairP_append_single (anns : List (String × List (String × String)))
    (ns0 : String) (l : List (String × String)) (ns k v : String) :
    storedPairP (anns ++ [(ns0, l)]) ns k v ↔
      storedPairP anns ns k v ∨ (ns0 = ns ∧ (k, v) ∈ l) := by
  unfold storedPairP
  simp only [List.mem_append, List.mem_singleton]
  constructor
  · rintro ⟨e, he | he, h1, h2⟩
    · exact Or.inl ⟨e, he, h1, h2⟩
    · subst he; exact Or.inr ⟨h1, h2⟩
  · rintro (⟨e, he, h1, h2⟩ | ⟨h1, h2⟩)
    · exact ⟨e, Or.inl he, h1, h2⟩
    · exact ⟨(ns0, l), Or.inr rfl, h1, h2⟩

theorem storedPairP_filter_self (anns : List (String × List (String × String)))
    (ns k v : String) :
    ¬ storedPairP (anns.filter (fun a => ! (a.1 == ns))) ns k v := by
  rintro ⟨e, he, h1, _⟩
  have h2 := (List.mem_filter.mp he).2
  rw [h1] at h2
  simp at h2

theorem storedPairP_remove_append_self (anns : List (String × List (String × String)))
    (l : List (String × String)) (ns k v : String) :
    storedPairP (anns.filter (fun a => ! (a.1 == ns)) ++ [(ns, l)]) ns k v ↔
      (k, v) ∈ l := by
  rw [storedPairP_append_single]
  constructor
  · rintro (h | ⟨_, h⟩)
    · exact absurd h (storedPairP_filter_self anns ns k v)
    · exact h
  · exact fun h => Or.inr ⟨rfl, h⟩

theorem appendRewrite_cons (ns : String)
    (key_values : KVDict) (rest : NsDict) (st : ImageState) (log : List String) :
    appendRewrite (fun _ => none) ((ns, key_values) :: rest) st log =
      appendRewrite (fun _ => none) rest
        { st with mapAnns := st.mapAnns.filter (fun a => ! (a.1 == ns)) ++
            [(ns, flattenKVDict key_values)] }
        (log ++ [ns]) := rfl

theorem appendRewrite_total :
    ∀ (merged : NsDict) (st : ImageState) (log : List String),
      ∃ r, appendRewrite (fun _ => none) merged st log = .ok r
  | [], st, log => ⟨(st, log), rfl⟩
  | (ns, key_values) :: rest, st, log => by
    rw [appendRewrite_cons]
    exact appendRewrite_total rest _ _

theorem appendRewrite_log :
    ∀ (merged : NsDict) (st : ImageState) (log : List String)
      (r : ImageState × List String),
      appendRewrite (fun _ => none) merged st log = .ok r →
      r.2 = log ++ merged.map Prod.fst
  | [], st, log, r, h => by
    simp only [appendRewrite, Except.ok.injEq] at h
    rw [← h]
    simp
  | (ns, kv0) :: rest, st, log, r, h => by
    rw [appendRewrite_cons] at h
    rw [appendRewrite_log rest _ _ r h]
    simp

theorem appendRewrite_linkedTags :
    ∀ (merged : NsDict) (st : ImageState) (log : List String)
      (r : ImageState × List String),
      appendRewrite (fun _ => none) merged st log = .ok r →
      r.1.linkedTags = st.linkedTags
  | [], st, log, r, h => by
    simp only [appendRewrite, Except.ok.injEq] at h
    rw [← h]
  | (ns, kv0) :: rest, st, log, r, h => by
    rw [appendRewrite_cons] at h
    exact (appendRewrite_linkedTags rest _ _ r h).trans rfl

theorem appendRewrite_pairP_untouched (ns k v : String) :
    ∀ (merged : NsDict) (st : ImageState) (log : List String)
      (r : ImageState × List String),
      appendRewrite (fun _ => none) merged st log = .ok r →
      ns ∉ merged.map Prod.fst →
      (storedPairP r.1.mapAnns ns k v ↔ storedPairP st.mapAnns ns k v)
  | [], st, log, r, h, _ => by
    simp only [appendRewrite, Except.ok.injEq] at h
    rw [← h]
  | (ns0, kv0) :: rest, st, log, r, h, hmem => by
    rw [List.map_cons, List.mem_cons] at hmem
    push_neg at hmem
    obtain ⟨hne, hrest⟩ := hmem
    rw [appendRewrite_cons] at h
    rw [appendRewrite_pairP_untouched ns k v rest _ _ r h hrest]
    show storedPairP (st.mapAnns.filter (fun a => ! (a.1 == ns0)) ++
      [(ns0, flattenKVDict kv0)]) ns k v ↔ _
    rw [storedPairP_append_single]
    constructor
    · rintro (h1 | ⟨h1, _⟩)
      · exact (storedPairP_filter_ne st.mapAnns ns0 ns k v hne).mp h1
      · exact absurd h1.symm hne
    · intro h1
      exact Or.inl ((storedPairP_filter_ne st.mapAnns ns0 ns k v hne).mpr h1)

theorem appendRewrite_pairP_exact (ns k v : String) :
    ∀ (merged : NsDict) (st : ImageState) (log : List String)
      (r : ImageState × List String) (kvd : KVDict),
      appendRewrite (fun _ => none) merged st log = .ok r →
      (merged.map Prod.fst).Nodup → List.lookup ns merged = some kvd →
      (storedPairP r.1.mapAnns ns k v ↔ kvdPairP kvd k v)
  | [], st, log, r, kvd, _, _, hl => absurd hl (by simp)
  | (ns0, kv0) :: rest, st, log, r, kvd, h, hnd, hl => by
    rw [List.map_cons, List.nodup_cons] at hnd
    rw [lookup_cons'] at hl
    rw [appendRewrite_cons] at h
    by_cases hx : ns = ns0
    · subst hx
      rw [if_pos rfl] at hl
      injection hl with hl
      subst hl
      rw [appendRewrite_pairP_untouched ns k v rest _ _ r h hnd.1]
      show storedPairP ((st.mapAnns.filter (fun a => ! (a.1 == ns))) ++
        [(ns, flattenKVDict kv0)]) ns k v ↔ _
      rw [storedPairP_remove_append_self, flatten_pair_mem]
    · rw [if_neg hx] at hl
      exact appendRewrite_pairP_exact ns k v rest _ _ r kvd h hnd.2 hl

theorem apTagStep_skip (et td : List String) (p : ImageState × Int) (tag : String)
    (h : et.contains tag = true) : apTagStep et td p tag = p := by
  unfold apTagStep
  rw [if_neg (by rw [h]; simp)]

theorem apTagStep_add_linked (et td : List String) (p : ImageState × Int) (tag : String)
    (h : et.contains tag = false) :
    (apTagStep et td p tag).1.linkedTags = p.1.linkedTags ++ [tag] := by
  unfold apTagStep
  rw [if_pos h]
  split <;> rfl

theorem apTagStep_add_counter (et td : List String) (p : ImageState × Int) (tag : String)
    (h : et.contains tag = false) :
    (apTagStep et td p tag).2 = p.2 + 1 := by
  unfold apTagStep
  rw [if_pos h]
  split <;> rfl

theorem apTagStep_mapAnns (et td : List String) (p : ImageState × Int) (tag : String) :
    (apTagStep et td p tag).1.mapAnns = p.1.mapAnns := by
  unfold apTagStep
  split
  · split <;> rfl
  · rfl

theorem apTagFold_linked (et td : List String) :
    ∀ (nt : List String) (p : ImageState × Int),
      (nt.foldl (apTagStep et td) p).1.linkedTags =
        p.1.linkedTags ++ nt.filter (fun t => ! et.contains t)
  | [], p => by simp
  | tag :: rest, p => by
    rw [List.foldl_cons, apTagFold_linked et td rest, List.filter_cons]
    cases hc : et.contains tag with
    | true =>
      simp only [hc, Bool.not_true, Bool.false_eq_true, if_false]
      rw [apTagStep_skip et td p tag hc]
    | false =>
      simp only [hc, Bool.not_false, if_true]
      rw [apTagStep_add_linked et td p tag hc]
      simp

theorem apTagFold_counter (et td : List String) :
    ∀ (nt : List String) (p : ImageState × Int),
      (nt.foldl (apTagStep et td) p).2 =
        p.2 + ((nt.filter (fun t => ! et.contains t)).length : Int)
  | [], p => by simp
  | tag :: rest, p => by
    rw [List.foldl_cons, apTagFold_counter et td rest, List.filter_cons]
    cases hc : et.contains tag with
    | true =>
      simp only [hc, Bool.not_true, Bool.false_eq_true, if_false]
      rw [apTagStep_skip et td p tag hc]
    | false =>
      simp only [hc, Bool.not_false, if_true]
      rw [apTagStep_add_counter et td p tag hc]
      simp only [List.length_cons]
      push_cast
      ring

theorem apTagFold_mapAnns (et td : List String) :
    ∀ (nt : List String) (p : ImageState × Int),
      (nt.foldl (apTagStep et td) p).1.mapAnns = p.1.mapAnns
  | [], p => rfl
  | tag :: rest, p => by
    rw [List.foldl_cons, apTagFold_mapAnns et td rest, apTagStep_mapAnns]

theorem length_pos_ne (nt : List String) (h : ¬ nt.length > 0) : nt = [] := by
  cases nt with
  | nil => rfl
  | cons a t => simp at h

theorem appendTagsBranch_linked (st : ImageState) (nt : List String) :
    (appendTagsBranch st nt).1.linkedTags =
      st.linkedTags ++ nt.filter (fun t => ! st.linkedTags.contains t) := by
  unfold appendTagsBranch
  split
  · exact apTagFold_linked st.linkedTags st.allTags nt (st, 0)
  · rename_i h
    rw [length_pos_ne nt h]
    simp

theorem appendTagsBranch_counter (st : ImageState) (nt : List String) :
    (appendTagsBranch st nt).2 =
      ((nt.filter (fun t => ! st.linkedTags.contains t)).length : Int) := by
  unfold appendTagsBranch
  split
  · rw [apTagFold_counter st.linkedTags st.allTags nt (st, 0)]
    ring
  · rename_i h
    rw [length_pos_ne nt h]
    simp

theorem appendTagsBranch_mapAnns (st : ImageState) (nt : List String) :
    (appendTagsBranch st nt).1.mapAnns = st.mapAnns := by
  unfold appendTagsBranch
  split
  · exact apTagFold_mapAnns st.linkedTags st.allTags nt (st, 0)
  · rfl

theorem appendDictBranch_nil (dfail : String → Option Bool) (mapr : List String)
    (st : ImageState) (log : List String) (c : Int) :
    appendDictBranch dfail mapr st log [] c = .ok (st, log, c) := rfl

theorem appendFlatBranch_nil (dfail : String → Option Bool) (mapr : List String)
    (st : ImageState) (log : List String) (c : Int) :
    appendFlatBranch dfail mapr st log [] c = .ok (st, log, c) := rfl

theorem appendDictBranch_pos (mapr : List String)
    (st : ImageState) (log : List String) (dct : NsDict) (c : Int)
    (hd : dct ≠ []) (hm : mapr ≠ [])
    (r0 : ImageState × List String)
    (hrw : appendRewrite (fun _ => none)
      (appendMerge (get_existing_map_annotations st.mapAnns, c) dct).1 st log = .ok r0) :
    appendDictBranch (fun _ => none) mapr st log dct c =
      .ok (r0.1, r0.2,
           (appendMerge (get_existing_map_annotations st.mapAnns, c) dct).2) := by
  unfold appendDictBranch
  rw [if_pos (List.length_pos.mpr hd), if_pos (List.length_pos.mpr hm)]
  simp only [hrw]

theorem apFlatFold_ext :
    ∀ (lst : List (String × String)) (q : List (String × String) × Int),
      ∃ extra, (lst.foldl apFlatStep q).1 = q.1 ++ extra
  | [], q => ⟨[], by simp⟩
  | kv :: rest, q => by
    rw [List.foldl_cons]
    cases hc : q.1.contains kv with
    | true =>
      rw [show apFlatStep q kv = q from by unfold apFlatStep; rw [if_pos hc]]
      exact apFlatFold_ext rest q
    | false =>
      rw [show apFlatStep q kv = (q.1 ++ [kv], q.2 + 1) from by
        unfold apFlatStep; rw [if_neg (by rw [hc]; simp)]]
      obtain ⟨extra, he⟩ := apFlatFold_ext rest (q.1 ++ [kv], q.2 + 1)
      exact ⟨[kv] ++ extra, by rw [he]; simp⟩

theorem appendFlatBranch_pos (st : ImageState)
    (log : List String) (lst : List (String × String)) (c : Int) (hne : lst ≠ []) :
    appendFlatBranch (fun _ => none) [] st log lst c =
      .ok ({ st with
              mapAnns := st.mapAnns.filter (fun a => ! (a.1 == DEFAULT_NAMESPACE)) ++
                [(DEFAULT_NAMESPACE,
                  (lst.foldl apFlatStep (defaultNsFlat st.mapAnns, c)).1)] },
            log ++ [DEFAULT_NAMESPACE],
            (lst.foldl apFlatStep (defaultNsFlat st.mapAnns, c)).2) := by
  unfold appendFlatBranch
  rw [if_pos (List.length_pos.mpr hne)]
  rfl

theorem appendFlatBranch_mono (st : ImageState) (log : List String)
    (lst : List (String × String)) (c : Int) (mapr : List String)
    (r : ImageState × List String × Int)
    (h : appendFlatBranch (fun _ => none) mapr st log lst c = .ok r)
    (ns k v : String) (hst : storedPairP st.mapAnns ns k v) :
    storedPairP r.1.mapAnns ns k v := by
  rcases eq_or_ne lst [] with hlst | hlst
  · subst hlst
    rw [appendFlatBranch_nil] at h
    simp only [Except.ok.injEq] at h
    rw [← h]
    exact hst
  · by_cases hm : mapr.length = 0
    · have hmapr : mapr = [] := List.length_eq_zero.mp hm
      subst hmapr
      rw [appendFlatBranch_pos st log lst c hlst] at h
      simp only [Except.ok.injEq] at h
      rw [← h]
      show storedPairP ((st.mapAnns.filter (fun a => ! (a.1 == DEFAULT_NAMESPACE))) ++
        [(DEFAULT_NAMESPACE, (lst.foldl apFlatStep (defaultNsFlat st.mapAnns, c)).1)]) ns k v
      by_cases hns : ns = DEFAULT_NAMESPACE
      · subst hns
        rw [storedPairP_remove_append_self]
        have hex := (getExisting_pairP st.mapAnns DEFAULT_NAMESPACE k v).mpr hst
        obtain ⟨kvd, hl, hp⟩ := hex
        obtain ⟨extra, hext⟩ := apFlatFold_ext lst (defaultNsFlat st.mapAnns, c)
        rw [hext]
        refine List.mem_append.mpr (Or.inl ?_)
        unfold defaultNsFlat
        rw [hl]
        exact (flatten_pair_mem k v kvd).mpr hp
      · rw [storedPairP_append_single]
        exact Or.inl ((storedPairP_filter_ne st.mapAnns DEFAULT_NAMESPACE ns k v hns).mpr hst)
    · unfold appendFlatBranch at h
      rw [if_pos (List.length_pos.mpr hlst), if_neg hm] at h
      exact absurd h (by simp)

theorem appendDictBranch_mono (st : ImageState) (log : List String)
    (dct : NsDict) (c : Int) (mapr : List String)
    (r : ImageState × List String × Int)
    (h : appendDictBranch (fun _ => none) mapr st log dct c = .ok r)
    (ns k v : String) (hst : storedPairP st.mapAnns ns k v) :
    storedPairP r.1.mapAnns ns k v := by
  obtain ⟨r0, hrw⟩ := appendRewrite_total
    (appendMerge (get_existing_map_annotations st.mapAnns, c) dct).1 st log
  unfold appendDictBranch at h
  split at h
  · split at h
    · simp only [hrw, Except.ok.injEq] at h
      rw [← h]
      have hex := (getExisting_pairP st.mapAnns ns k v).mpr hst
      have hmerged := appendMerge_pairP_mono ns k v dct
        (get_existing_map_annotations st.mapAnns, c) hex
      obtain ⟨kvd, hl, hp⟩ := hmerged
      have hnd := appendMerge_keys_nodup dct (get_existing_map_annotations st.mapAnns, c)
        (getExisting_keys_nodup st.mapAnns)
      exact (appendRewrite_pairP_exact ns k v _ st log r0 kvd hrw hnd hl).mpr hp
    · exact absurd h (by simp)
  · simp only [Except.ok.injEq] at h
    rw [← h]
    exact hst

theorem appendDictBranch_linkedTags (mapr : List String)
    (st : ImageState) (log : List String) (dct : NsDict) (c : Int)
    (r : ImageState × List String × Int)
    (h : appendDictBranch (fun _ => none) mapr st log dct c = .ok r) :
    r.1.linkedTags = st.linkedTags := by
  obtain ⟨r0, hrw⟩ := appendRewrite_total
    (appendMerge (get_existing_map_annotations st.mapAnns, c) dct).1 st log
  unfold appendDictBranch at h
  split at h
  · split at h
    · simp only [hrw, Except.ok.injEq] at h
      rw [← h]
      exact appendRewrite_linkedTags _ st log r0 hrw
    · exact absurd h (by simp)
  · simp only [Except.ok.injEq] at h
    rw [← h]

theorem appendFlatBranch_linkedTags (mapr : List String)
    (st : ImageState) (log : List String) (lst : List (String × String)) (c : Int)
    (r : ImageState × List String × Int)
    (h : appendFlatBranch (fun _ => none) mapr st log lst c = .ok r) :
    r.1.linkedTags = st.linkedTags := by
  unfold appendFlatBranch at h
  split at h
  · split at h
    · simp only [remove_map_annotations, Except.ok.injEq] at h
      rw [← h]
    · exact absurd h (by simp)
  · simp only [Except.ok.injEq] at h
    rw [← h]

/-- C7: Append reconciliation is monotonic: links exactly the new tags
not already linked (in order, never re-linking an already linked tag),
counts exactly those, and never removes a stored (namespace, key,
value) triple. -/
theorem C7_append_monotonic (pst : Bool) (mapr : List String) (st : ImageState)
    (data : Hier) (tags : List String) (lst : List (String × String)) (dct : NsDict)
    (hsplit : split_data pst mapr data = .ok (tags, lst, dct))
    (st1 : ImageState) (log : List String) (kv tg : Int)
    (hrun : annotateObject (fun _ => none) .Append pst mapr st data =
      .ok (st1, log, kv, tg)) :
    st1.linkedTags = st.linkedTags ++ tags.filter (fun t => ! st.linkedTags.contains t) ∧
    tg = ((tags.filter (fun t => ! st.linkedTags.contains t)).length : Int) ∧
    (∀ ns k v, storedPairP st.mapAnns ns k v → storedPairP st1.mapAnns ns k v) := by
  rw [annotateObject_ok_append (fun _ => none) pst mapr st data tags lst dct hsplit] at hrun
  cases hd : appendDictBranch (fun _ => none) mapr (appendTagsBranch st tags).1 [] dct 0 with
  | error e => rw [hd] at hrun; exact absurd hrun (by simp)
  | ok r1 =>
    rw [hd] at hrun
    cases hf : appendFlatBranch (fun _ => none) mapr r1.1 r1.2.1 lst r1.2.2 with
    | error e => simp only [hf] at hrun; exact absurd hrun (by simp)
    | ok r2 =>
      simp only [hf, Except.ok.injEq, Prod.mk.injEq] at hrun
      obtain ⟨h1, _, _, h4⟩ := hrun
      refine ⟨?_, ?_, ?_⟩
      · rw [← h1,
          appendFlatBranch_linkedTags mapr r1.1 r1.2.1 lst r1.2.2 r2 hf,
          appendDictBranch_linkedTags mapr _ [] dct 0 r1 hd,
          appendTagsBranch_linked]
      · rw [← h4, appendTagsBranch_counter]
      · intro ns k v hst
        rw [← h1]
        refine appendFlatBranch_mono r1.1 r1.2.1 lst r1.2.2 mapr r2 hf ns k v ?_
        refine appendDictBranch_mono (appendTagsBranch st tags).1 [] dct 0 mapr r1 hd ns k v ?_
        rw [appendTagsBranch_mapAnns]
        exact hst

/-- C7 witness: the spec's mouse/wildtype Append scenario, extended with a
stored key/value pair that survives reconciliation. -/
theorem C7_append_monotonic_witness :
    storedPairP [("N", [("k", "v")])] "N" "k" "v" :=
  (C7_append_monotonic true [] ⟨["mouse"], ["mouse"], [("N", [("k", "v")])]⟩
    [(none, [("_x", ["mouse", "wildtype"])])] ["mouse", "wildtype"] [] [] rfl
    ⟨["mouse", "wildtype"], ["mouse", "wildtype"], [("N", [("k", "v")])]⟩ [] 0 1
    rfl).2.2 "N" "k" "v"
    ⟨("N", [("k", "v")]), List.mem_singleton.mpr rfl, rfl, List.mem_singleton.mpr rfl⟩

/-- C2 counterexample: in Append mode with directory
`["Organism", "Biosample info"]`, namespace `"Organism"` exists in the
snapshot and is absent from the new data, yet a MapAnnotation delete IS
issued against `"Organism"` (the engine deletes and rewrites every
namespace of the merged snapshot). -/
theorem C2_counterexample :
    annotateObject (fun _ => none) .Append false ["Organism", "Biosample info"]
        ⟨[], [], [("Organism", [("k", "v")])]⟩
        [(some "01_Bio", [("species", ["mouse"])])] =
      .ok (⟨[], [], [("Organism", [("k", "v")]),
            ("Biosample info", [("species", "mouse")])]⟩,
        ["Organism", "Biosample info"], 1, 0) ∧
    split_data false ["Organism", "Biosample info"]
        [(some "01_Bio", [("species", ["mouse"])])] =
      .ok ([], [], [("Biosample info", [("species", ["mouse"])])]) ∧
    List.lookup "Organism" [("Biosample info", [("species", ["mouse"])])] = none ∧
    (List.lookup "Organism"
      (get_existing_map_annotations [("Organism", [("k", "v")])])).isSome = true ∧
    "Organism" ∈ ["Organism", "Biosample info"] :=
  ⟨rfl, rfl, rfl, rfl, by decide⟩

/-- C2 amended: in Append mode with a non-empty directory, a namespace
present in the existing annotations but absent from the new data keeps
exactly its stored (key, value) pairs — nothing is added or removed
under it — but it is NOT left untouched: when the new data is non-empty
a delete (followed by a rewrite) is issued against every existing
namespace, including it. -/
theorem C2_append_untouched_namespace (pst : Bool) (mapr : List String)
    (st : ImageState) (data : Hier)
    (tags : List String) (lst : List (String × String)) (dct : NsDict)
    (hsplit : split_data pst mapr data = .ok (tags, lst, dct)) (hm : mapr ≠ [])
    (st1 : ImageState) (log : List String) (kv tg : Int)
    (hrun : annotateObject (fun _ => none) .Append pst mapr st data =
      .ok (st1, log, kv, tg))
    (ns : String) (hns : List.lookup ns dct = none) :
    (∀ k v, storedPairP st1.mapAnns ns k v ↔ storedPairP st.mapAnns ns k v) ∧
    (dct ≠ [] →
      (List.lookup ns (get_existing_map_annotations st.mapAnns)).isSome = true →
      ns ∈ log) := by
  have hlst : lst = [] :=
    (split_data_loop_modes pst mapr data [] [] [] tags lst dct hsplit).2 hm
  subst hlst
  rw [annotateObject_ok_append (fun _ => none) pst mapr st data tags [] dct hsplit] at hrun
  rcases eq_or_ne dct [] with hdct | hdct
  · subst hdct
    simp only [appendDictBranch_nil, appendFlatBranch_nil, Except.ok.injEq,
      Prod.mk.injEq] at hrun
    obtain ⟨h1, h2, _, _⟩ := hrun
    constructor
    · intro k v
      rw [← h1, appendTagsBranch_mapAnns]
    · intro hcontra
      exact absurd rfl hcontra
  · obtain ⟨r0, hrw⟩ := appendRewrite_total
      (appendMerge (get_existing_map_annotations (appendTagsBranch st tags).1.mapAnns,
        (0 : Int)) dct).1 (appendTagsBranch st tags).1 []
    rw [appendDictBranch_pos mapr (appendTagsBranch st tags).1 [] dct 0 hdct hm
      r0 hrw] at hrun
    simp only [appendFlatBranch_nil, Except.ok.injEq, Prod.mk.injEq] at hrun
    obtain ⟨h1, h2, _, _⟩ := hrun
    have hexmap : get_existing_map_annotations (appendTagsBranch st tags).1.mapAnns =
        get_existing_map_annotations st.mapAnns := by
      rw [appendTagsBranch_mapAnns]
    constructor
    · intro k v
      rw [← h1]
      have hmerge := appendMerge_lookup_ne ns dct
        (get_existing_map_annotations (appendTagsBranch st tags).1.mapAnns, (0 : Int)) hns
      cases hl : List.lookup ns
          (get_existing_map_annotations (appendTagsBranch st tags).1.mapAnns) with
      | some kvd =>
        rw [hl] at hmerge
        have hnd : (((appendMerge
            (get_existing_map_annotations (appendTagsBranch st tags).1.mapAnns, (0 : Int))
            dct).1.map Prod.fst)).Nodup := by
          refine appendMerge_keys_nodup dct _ ?_
          rw [hexmap]
          exact getExisting_keys_nodup st.mapAnns
        rw [appendRewrite_pairP_exact ns k v _ _ _ r0 kvd hrw hnd hmerge]
        have hl2 : List.lookup ns (get_existing_map_annotations st.mapAnns) = some kvd := by
          rw [← hexmap]
          exact hl
        rw [← getExisting_pairP st.mapAnns ns k v]
        unfold nsPairP
        rw [hl2]
        constructor
        · intro hp
          exact ⟨kvd, rfl, hp⟩
        · rintro ⟨kvd2, hkvd2, hp⟩
          injection hkvd2 with hkvd2
          exact hkvd2 ▸ hp
      | none =>
        rw [hl] at hmerge
        have hnotkeys : ns ∉ ((appendMerge
            (get_existing_map_annotations (appendTagsBranch st tags).1.mapAnns, (0 : Int))
            dct).1.map Prod.fst) := (lookup_none_iff_keys ns _).mp hmerge
        rw [appendRewrite_pairP_untouched ns k v _ _ _ r0 hrw hnotkeys,
          appendTagsBranch_mapAnns]
    · intro _ hsome
      rw [← h2, appendRewrite_log _ _ _ r0 hrw]
      refine List.mem_append.mpr (Or.inr ?_)
      rw [← lookup_isSome_iff_keys]
      refine appendMerge_isSome_mono dct _ ns ?_
      rw [hexmap]
      exact hsome

/-- C2 witness: the amended statement at the counterexample's input — the
pairs under `"Organism"` are unchanged and the delete trace contains
`"Organism"`. -/
theorem C2_append_untouched_namespace_witness :
    (storedPairP [("Organism", [("k", "v")]),
        ("Biosample info", [("species", "mouse")])] "Organism" "k" "v" ↔
      storedPairP [("Organism", [("k", "v")])] "Organism" "k" "v") ∧
    "Organism" ∈ ["Organism", "Biosample info"] :=
  ⟨(C2_append_untouched_namespace false ["Organism", "Biosample info"]
      ⟨[], [], [("Organism", [("k", "v")])]⟩
      [(some "01_Bio", [("species", ["mouse"])])]
      [] [] [("Biosample info", [("species", ["mouse"])])] rfl
      (List.cons_ne_nil _ _)
      ⟨[], [], [("Organism", [("k", "v")]), ("Biosample info", [("species", "mouse")])]⟩
      ["Organism", "Biosample info"] 1 0 rfl "Organism" rfl).1 "k" "v",
   (C2_append_untouched_namespace false ["Organism", "Biosample info"]
      ⟨[], [], [("Organism", [("k", "v")])]⟩
      [(some "01_Bio", [("species", ["mouse"])])]
      [] [] [("Biosample info", [("species", ["mouse"])])] rfl
      (List.cons_ne_nil _ _)
      ⟨[], [], [("Organism", [("k", "v")]), ("Biosample info", [("species", "mouse")])]⟩
      ["Organism", "Biosample info"] 1 0 rfl "Organism" rfl).2
      (List.cons_ne_nil _ _) rfl⟩

/-- C9 (refuted as stated; code bug): a failing MapAnnotation delete is
meant to be logged and swallowed, but the handler's
`print("Failed to delete links: {}".format(ex.message))` dereferences
`ex.message`, which does not exist on the `omero.CmdError` that
`waitOnCmd(..., failonerror=True)` raises when the `Delete2` fails;
the handler itself then raises `AttributeError`, which propagates and
aborts the reconciliation.  On the same Overwrite input: a delete
failure whose exception lacks `.message` aborts the run with the
`AttributeError`, while a failure whose exception has `.message` — and
a run with no failure at all — both return a result. -/
theorem C9_failed_delete_aborts :
    annotateObject (fun _ => some false) .Overwrite false []
        ⟨[], [], [(DEFAULT_NAMESPACE, [("species", "rat")])]⟩
        [(some "A", [("species", ["mouse"])])] =
      .error "AttributeError: object has no attribute message" ∧
    (annotateObject (fun _ => some true) .Overwrite false []
        ⟨[], [], [(DEFAULT_NAMESPACE, [("species", "rat")])]⟩
        [(some "A", [("species", ["mouse"])])]).isOk = true ∧
    (annotateObject (fun _ => none) .Overwrite false []
        ⟨[], [], [(DEFAULT_NAMESPACE, [("species", "rat")])]⟩
        [(some "A", [("species", ["mouse"])])]).isOk = true :=
  ⟨rfl, rfl, rfl⟩
